import Mathlib

/-!
Verification of the path-chain router of `github.com/alrusov/rest/v4`
(package `path`): data model (`Token`, `Chain`, `Chains`, `Set`),
the two-phase lifecycle (`Chains.Prepare`, `Chains.Find`, `Set.Find`),
the precedence sort (`Chains.Less` + the library sort), cloning, and
typed parameter binding.

Modelling conventions:
* Go slices of pointers (`[]*Chain`) become `List (Option Chain)`;
  a `none` entry is a nil pointer.
* A compiled regexp (`*regexp.Regexp`) becomes `Option (String → Bool)`:
  the host pattern facility is abstract (the repository delegates matching
  to Go's `regexp`), so `Prepare` is parametrised by a compile function
  `String → Option (String → Bool)` receiving the anchored pattern
  `^(expr)$`; `none` is a compile failure.
* Run-time panics (indexing an empty chain list, dereferencing a nil
  `*Chain` or a nil `*regexp.Regexp`, `reflect.Value.Addr` on a missing
  field) are modelled by an outer `Option`: a `none` overall result is a
  panic, `some r` is a normal return.
* The typed parameter record (a struct allocated by `reflect.New` from
  `PathParamsType`) becomes an association list from field name to value,
  built from a field schema `List (String × FieldKind)`; `reflect.Kind`
  checks become `FieldKind` checks.
* `misc.Messages` becomes `List String`; `msgs.Error()` is nil iff the
  list is empty.
-/

namespace Rest

/-- The semantic kind of a destination field of the parameter record,
mirroring the `reflect.Kind` switch in `Chains.Prepare`
(`reflect.String`, `reflect.Int..Int64`, `reflect.Uint..Uint64`;
anything else is `other`). -/
inductive FieldKind where
  | str
  | i | i8 | i16 | i32 | i64
  | u | u8 | u16 | u32 | u64
  | other (name : String)
deriving DecidableEq, Repr

/-- Structural description of the parameter record type
(`PathParamsType`): field name to field kind, in declaration order. -/
abbrev Schema := List (String × FieldKind)

/-- A bound field value: Go string fields hold strings, the ten
integer kinds hold integers. -/
inductive FieldValue where
  | vStr (s : String)
  | vInt (v : Int)
deriving DecidableEq, Repr

/-- A freshly allocated parameter record: field name to current value. -/
abbrev ParamRecord := List (String × FieldValue)

/-- `Token`: one path-segment matcher (`Expr`, `VarName`, compiled `re`).
`re` is `none` until `Prepare` compiles the pattern (nil `*regexp.Regexp`). -/
structure Token where
  expr : String
  varName : String
  re : Option (String → Bool) := none

/-- `Chain`: one routable path shape. `name` is the Go `Name` field
(used only to identify chains in statements), `flags` the `Flags uint64`,
`tokens` the `Tokens []*Token` (tokens are values here since the Go code
never stores nil tokens). The `Parent` back-pointer is not modelled. -/
structure Chain where
  name : String := ""
  flags : Nat := 0
  tokens : List Token := []

/-- `FlagChainDefault = 0x00000001`. -/
def flagChainDefault : Nat := 1

/-- `FlagChainEnableTail = 0x00000002`. -/
def flagChainEnableTail : Nat := 2

/-- `VarIgnore = "_"`, the discard sentinel destination name. -/
def varIgnore : String := "_"

/-- `Chains`: the chain set of one dispatch method, restricted to its
router-relevant fields: the resolved path-parameter schema
(`PathParamsType`), the chain list (`Chains ChainsList`, nils allowed
before compaction) and the `prepared` flag.  The OpenAPI / request-body /
DB fields of the Go struct are consumed by out-of-scope subsystems and
are not modelled. -/
structure Chains where
  pathParams : Schema := []
  chains : List (Option Chain) := []
  prepared : Bool := false

/-- Dispatch method identifier (`type Method = string`). -/
abbrev Method := String

/-- `Set`: maps dispatch methods to chain sets (`Methods map[Method]*Chains`,
modelled as an association list; `Set.Find` only performs lookups). -/
structure Set where
  methods : List (Method × Chains) := []

/-- `Chain.isDefault`: the chain carries `FlagChainDefault`. -/
def Chain.isDefault (c : Chain) : Bool := c.flags &&& flagChainDefault != 0

/-- `Chain.tailEnabled`: the chain carries `FlagChainEnableTail`. -/
def Chain.tailEnabled (c : Chain) : Bool := c.flags &&& flagChainEnableTail != 0

/-- First token's pattern text (`chain.Tokens[0].Expr`).  The Go code
only evaluates this on chains that passed validation (hence non-empty);
the `[]` case is an arbitrary total completion. -/
def Chain.headExpr (c : Chain) : String :=
  match c.tokens with
  | [] => ""
  | t :: _ => t.expr

/-- `Chains.Less` (part_006 lines 502-519) as a pure comparator.
`x`/`y` stand for `chains.Chains[i]`/`chains.Chains[j]`; the final
`return i < j` is the `posLt` argument.  Inside the library's insertion
sort `Less` is only ever called as `Less(j, j-1)`, where `i < j`
evaluates to `j < j-1 = false`, so the sort below passes `posLt = false`. -/
def chainLess (posLt : Bool) (x y : Chain) : Bool :=
  if (x.flags &&& flagChainDefault) != (y.flags &&& flagChainDefault) then
    x.flags &&& flagChainDefault == 0
  else if x.tokens.length != y.tokens.length then
    decide (x.tokens.length < y.tokens.length)
  else if x.headExpr == "" then
    y.headExpr != ""
  else
    posLt

/-- One step of the inner loop of the library's insertion sort
(`for j := i; j > a && data.Less(j, j-1); j--: data.Swap(j, j-1)`):
the new element `e` bubbles left past elements it is `lt`-less than.
`rp` is the already-sorted prefix in reversed order. -/
def bubbleIns (lt : α → α → Bool) (e : α) : List α → List α
  | [] => [e]
  | x :: rp => if lt e x then x :: bubbleIns lt e rp else e :: x :: rp

/-- Go's `insertionSort(data, a, b)`: grow a sorted prefix left to right,
bubbling each new element back.  The prefix is kept reversed during the
fold and reversed once at the end. -/
def goInsertionSort (lt : α → α → Bool) (l : List α) : List α :=
  (l.foldl (fun rp e => bubbleIns lt e rp) []).reverse

/-- `sort.Sort(chains)` as invoked by `Chains.Prepare`.  For ranges of at
most 12 elements Go's `pdqsort` runs plain `insertionSort`, within which
the comparator's positional tie-break `return i < j` is identically false
(it is called as `Less(j, j-1)`), giving the stable insertion sort below.
For longer ranges Go switches to an unstable pattern-defeating quicksort
whose comparisons hit the position-dependent branch of `Chains.Less` with
arbitrary index pairs; `Chains.Less` is not a strict weak order there
(e.g. `Less(i,j)` and `Less(j,i)` both hold when chain `i` has an empty
first pattern and `i > j`), so `sort.Sort`'s contract promises nothing.
This embedding uses the insertion-sort path for every length, and every
theorem about the sorted order is restricted to lists of at most 12
chains, where the embedding and the Go library coincide. -/
def sortSort (l : List Chain) : List Chain :=
  goInsertionSort (chainLess false) l

/-- Field lookup in the schema (`PathParamsType.FieldByName`): the first
entry with this name (struct field names are unique). -/
def lookupKind (schema : Schema) (name : String) : Option FieldKind :=
  match schema with
  | [] => none
  | p :: t => if p.1 == name then some p.2 else lookupKind t name

/-- The `reflect.Kind` switch of `Chains.Prepare`: a destination field
must be a string or an integer of any sign and width. -/
def kindOk : FieldKind → Bool
  | .other _ => false
  | _ => true

/-- The anchored pattern handed to `regexp.Compile`. -/
def anchor (expr : String) : String := "^(" ++ expr ++ ")$"

/-- Validation and compilation of one token inside the chain-analysis
loop of `Chains.Prepare` (part_006 lines 348-383).  Each failing check
appends one message and `continue`s, skipping the remaining checks and
the `re` assignment for this token only.  Returns the (possibly updated)
token and its messages. -/
def prepToken (schema : Schema) (compile : String → Option (String → Bool))
    (nTokens ci ti : Nat) (t : Token) : Token × List String :=
  let pos := "[" ++ toString ci ++ "." ++ toString ti ++ "] "
  if t.varName == "" then
    (t, [pos ++ "empty var name"])
  else
    let v := t.varName
    let fieldMsgs : List String :=
      if t.varName != varIgnore then
        match lookupKind schema t.varName with
        | none => [pos ++ "field \"" ++ v ++ "\" not found in PathParamsPattern"]
        | some k =>
          if kindOk k then []
          else [pos ++ "field \"" ++ v ++ "\" is not a string or integer"]
      else []
    if !fieldMsgs.isEmpty then
      (t, fieldMsgs)
    else if t.expr == "" && decide (nTokens > 1) then
      (t, [pos ++ "an empty expression is allowed only in a chain with one element"])
    else
      match compile (anchor t.expr) with
      | none => (t, [pos ++ "pattern does not compile"])
      | some re => ({ t with re := some re }, [])

/-- Validation of one chain inside `Chains.Prepare`: an empty chain
yields one message and its tokens are skipped; otherwise every token is
processed (errors do not stop the loop). -/
def prepChain (schema : Schema) (compile : String → Option (String → Bool))
    (ci : Nat) (ch : Chain) : Chain × List String :=
  if ch.tokens.length == 0 then
    (ch, ["[" ++ toString ci ++ "] chain is empty"])
  else
    let results := ch.tokens.enum.map
      (fun p => prepToken schema compile ch.tokens.length ci p.1 p.2)
    ({ ch with tokens := results.map Prod.fst },
      (results.map Prod.snd).foldr (fun a b => a ++ b) [])

/-- `Chains.Prepare` (part_006 lines 185-394), restricted to the router
core: the re-preparation guard, nil-chain compaction, the chain-analysis
loop (validate + compile, aggregating all failures), and on success the
precedence sort and the `prepared` transition.  The header/OpenAPI/DB
preamble of the Go function acts on fields outside this model (the
parameter schema is already resolved here).  Returns the updated state
and the aggregated messages (`misc.Messages`; `[]` means a nil error). -/
def Chains.Prepare (compile : String → Option (String → Bool))
    (c : Chains) : Chains × List String :=
  if c.prepared then
    (c, ["already prepared"])
  else
    let compacted := c.chains.filterMap id
    let results := compacted.enum.map
      (fun p => prepChain c.pathParams compile p.1 p.2)
    let chains' := results.map Prod.fst
    let msgs := (results.map Prod.snd).foldr (fun a b => a ++ b) []
    if msgs.isEmpty then
      ({ c with chains := (sortSort chains').map some, prepared := true }, [])
    else
      ({ c with chains := chains'.map some }, msgs)

/-- Zero value of a field kind (`reflect.New` zeroes the record):
`""` for strings, `0` for the integer family.  `other` kinds never pass
validation; their zero is an arbitrary total completion. -/
def zeroValue : FieldKind → FieldValue
  | .str => .vStr ""
  | .other _ => .vStr ""
  | _ => .vInt 0

/-- The freshly allocated, zero-valued parameter record
(`pp := reflect.New(chains.PathParamsType)`). -/
def zeroRecord (schema : Schema) : ParamRecord :=
  schema.map (fun p => (p.1, zeroValue p.2))

/-- Write a bound value into its destination field
(`ppp.FieldByName(name).Addr()` assignment; struct field names are
unique, so replacing every pair with this name is the field write). -/
def setField (pr : ParamRecord) (name : String) (v : FieldValue) : ParamRecord :=
  pr.map (fun p => if p.1 == name then (p.1, v) else p)

/-- Read a field of the parameter record. -/
def getField (pr : ParamRecord) (name : String) : Option FieldValue :=
  match pr with
  | [] => none
  | p :: t => if p.1 == name then some p.2 else getField t name

/-- Whether the integer kind is signed. -/
def intSigned : FieldKind → Bool
  | .i | .i8 | .i16 | .i32 | .i64 => true
  | _ => false

/-- Bit width of the integer kind (`int`/`uint` are 64-bit here). -/
def intBits : FieldKind → Nat
  | .i8 | .u8 => 8
  | .i16 | .u16 => 16
  | .i32 | .u32 => 32
  | _ => 64

/-- Decimal value of a non-empty digit string, `none` on any non-digit. -/
def digitsVal : List Char → Option Nat
  | [] => none
  | cs => cs.foldl
      (fun acc c =>
        match acc with
        | none => none
        | some n => if c.isDigit then some (n * 10 + (c.toNat - 48)) else none)
      (some 0)

/-- Modelled from the spec: the integer branch of the Parameter Binder
(`misc.Iface2IfacePtr`, a library routine not in this repository) —
"integer-family (parse with range/sign appropriate to the declared
width)".  A signed target accepts an optional sign, an unsigned target
only digits; the value must fit the declared width. -/
def parseDec (signed : Bool) (bits : Nat) (s : String) : Option Int :=
  let fit : Int → Option Int := fun v =>
    if signed then
      if -(2 ^ (bits - 1) : Int) ≤ v ∧ v < 2 ^ (bits - 1) then some v else none
    else
      if 0 ≤ v ∧ v < (2 ^ bits : Int) then some v else none
  match s.data with
  | '-' :: rest =>
    if signed then (digitsVal rest).bind (fun n => fit (-(n : Int))) else none
  | '+' :: rest =>
    if signed then (digitsVal rest).bind (fun n => fit (n : Int)) else none
  | cs => (digitsVal cs).bind (fun n => fit (n : Int))

/-- Modelled from the spec: the Parameter Binder conversion
(`misc.Iface2IfacePtr` of a matched segment into the destination field,
a library routine not in this repository) — "supports exactly two target
kinds — string (identity copy) and integer-family"; a failure is
reported as an error message and aggregated by the caller. -/
def convert (k : FieldKind) (s : String) : Except String FieldValue :=
  match k with
  | .str => .ok (.vStr s)
  | .other n => .error ("cannot convert \"" ++ s ++ "\": unsupported kind " ++ n)
  | _ =>
    match parseDec (intSigned k) (intBits k) s with
    | some v => .ok (.vInt v)
    | none => .error ("cannot convert \"" ++ s ++ "\" to an integer")

/-- The parameter-binding loop in the deferred part of `Chains.Find`
(part_006 lines 423-436): for each token, a discard name is skipped, the
loop breaks at the end of the path, a missing destination field panics
(`reflect.Value.Addr` on a zero `Value` — outer `none`), and a
conversion failure appends its message and continues. -/
def bindTokens (schema : Schema) (path : List String) :
    List Token → Nat → ParamRecord → List String → Option (ParamRecord × List String)
  | [], _, pr, msgs => some (pr, msgs)
  | t :: ts, i, pr, msgs =>
    if t.varName == varIgnore then
      bindTokens schema path ts (i + 1) pr msgs
    else if path.length ≤ i then
      some (pr, msgs)
    else
      match lookupKind schema t.varName with
      | none => none
      | some k =>
        match convert k (path.getD i "") with
        | .ok v => bindTokens schema path ts (i + 1) (setField pr t.varName v) msgs
        | .error e => bindTokens schema path ts (i + 1) pr (msgs ++ [e])

/-- Result of `Chains.Find`: the matched chain, the bound parameter
record (`pathParams any`; `none` is a nil interface), the status
discriminator `code` and the aggregated error messages. -/
structure FindResult where
  matched : Option Chain
  pathParams : Option ParamRecord
  code : Nat
  err : List String

/-- The tail of the deferred function of `Chains.Find` once a chain is
matched: allocate-and-bind, then either return the match with the
record, or — if any conversion message accumulated — reset the match to
"no match" and return the aggregated error.  `code` is whatever it was
before binding (0 on every path that reaches binding). -/
def bindPhase (c : Chains) (path : List String) (ch : Chain) : Option FindResult :=
  match bindTokens c.pathParams path ch.tokens 0 (zeroRecord c.pathParams) [] with
  | none => none
  | some (pr, msgs) =>
    if msgs.isEmpty then some ⟨some ch, some pr, 0, []⟩
    else some ⟨none, some pr, 0, msgs⟩

/-- One token matcher applied to one segment
(`token.re.MatchString(path[i])`): `none` is a panic (out-of-range
segment index or nil compiled regexp). -/
def tokensMatch : List Token → List String → Option Bool
  | [], _ => some true
  | _ :: _, [] => none
  | t :: ts, s :: ss =>
    match t.re with
    | none => none
    | some re => if re s then tokensMatch ts ss else some false

/-- The scan loop of `Chains.Find` (part_006 lines 463-485) over the
sorted chain list: skip a shorter chain unless tail-enabled, stop at the
first longer chain, otherwise test every token against its segment and
take the first fully matching chain.  `some none` is "scan finished
without a match", `some (some ch)` a literal match, `none` a panic
(nil chain entry or nil compiled regexp). -/
def scanChains (path : List String) : List (Option Chain) → Option (Option Chain)
  | [] => some none
  | none :: _ => none
  | some ch :: rest =>
    if ch.tokens.length < path.length ∧ ch.flags &&& flagChainEnableTail = 0 then
      scanChains path rest
    else if path.length < ch.tokens.length then
      some none
    else
      match tokensMatch ch.tokens path with
      | none => none
      | some true => some (some ch)
      | some false => scanChains path rest

/-- The empty-path special case's condition (part_006 lines 455-456):
the first chain of the sorted list has exactly one token whose pattern
is the empty string. -/
def emptySpecial (c : Chains) : Bool :=
  match c.chains.head? with
  | some (some ch0) => ch0.tokens.length == 1 && ch0.headExpr == ""
  | _ => false

/-- Match selection of `Chains.Find` before the deferred fallback: the
empty-path special case, else the scan.  `none` is a panic (indexing
`chains.Chains[0]` of an empty list, a nil chain, a nil regexp). -/
def selectChain (c : Chains) (path : List String) : Option (Option Chain) :=
  if path.length = 0 then
    match c.chains.head? with
    | none => none
    | some none => none
    | some (some ch0) =>
      if ch0.tokens.length = 1 ∧ ch0.headExpr = "" then some (some ch0)
      else scanChains path c.chains
  else scanChains path c.chains

/-- The deferred fallback of `Chains.Find` (part_006 lines 410-419): with
no match so far, look at the last chain of the sorted list (panic if the
list is empty or the entry nil); a non-default last chain means
not-found (404), a default one becomes the match with success code 0 and
proceeds to binding. -/
def fallback (c : Chains) (path : List String) : Option Chain → Option FindResult
  | some ch => bindPhase c path ch
  | none =>
    match c.chains.getLast? with
    | none => none
    | some none => none
    | some (some last) =>
      if last.flags &&& flagChainDefault = 0 then
        some ⟨none, none, 404, []⟩
      else bindPhase c path last

/-- `Chains.Find` (part_006 lines 398-492): misuse guard (500 before
preparation), match selection (empty-path special case or scan), the
default-chain fallback, and parameter binding.  A `none` result is a
run-time panic of the Go code. -/
def Chains.Find (c : Chains) (path : List String) : Option FindResult :=
  if c.prepared = false then
    some ⟨none, none, 500, ["not prepared"]⟩
  else
    match selectChain c path with
    | none => none
    | some sel => fallback c path sel

/-- `Token.Clone`: `new := *token` (the compiled `re` pointer is copied,
not recompiled). -/
def Token.Clone (t : Token) : Token := t

/-- `Chain.Clone`: a nil chain clones to nil; otherwise `new := *chain`
with a fresh token slice of cloned tokens (the `Parent` pointer, not
modelled, is copied as-is). -/
def Chain.Clone (ch : Chain) : Chain :=
  { ch with tokens := ch.tokens.map Token.Clone }

/-- `ChainsList.Clone`: element-wise clone (`Chain.Clone` maps nil to nil). -/
def ChainsList.Clone (l : List (Option Chain)) : List (Option Chain) :=
  l.map (fun oc => oc.map Chain.Clone)

/-- `Chains.Clone`: `new := *chains` — every field, including the
`prepared` flag, is copied — with a fresh chain list of cloned chains. -/
def Chains.Clone (c : Chains) : Chains :=
  { c with chains := ChainsList.Clone c.chains }

/-- Result of `Set.Find`: `Chains.Find`'s outputs plus the reflective
`result any` slot (`some s` is the Set itself) and the method-level
status code. -/
structure SetFindResult where
  matched : Option Chain
  pathParams : Option ParamRecord
  result : Option Set
  code : Nat
  err : List String

/-- Method lookup (`set.Methods[m]`). -/
def Set.findMethod (s : Set) (m : Method) : Option Chains :=
  (s.methods.find? (fun p => p.1 == m)).map (fun p => p.2)

/-- `Set.Find` (part_006 lines 163-181): unknown or empty method chains
give 405; a single-segment path `.info` short-circuits to the Set itself
with 200, before any chain is scanned or any parameter bound; everything
else delegates to `Chains.Find`. -/
def Set.Find (s : Set) (m : Method) (path : List String) : Option SetFindResult :=
  match s.findMethod m with
  | none => some ⟨none, none, none, 405, []⟩
  | some c =>
    if c.chains.length = 0 then
      some ⟨none, none, none, 405, []⟩
    else if path.length = 1 ∧ path.getD 0 "" = ".info" then
      some ⟨none, none, some s, 200, []⟩
    else
      match c.Find path with
      | none => none
      | some r => some ⟨r.matched, r.pathParams, none, r.code, r.err⟩

/-! ## Specification-side predicates -/

/-- Strict lexicographic order on `(Bool, Nat, Bool)` with
`false < true`: the precedence key order. -/
def keyLtB (a b : Bool × Nat × Bool) : Bool :=
  (!a.1 && b.1) ||
    (a.1 == b.1 &&
      (decide (a.2.1 < b.2.1) ||
        (a.2.1 == b.2.1 && (!a.2.2 && b.2.2))))

/-- The precedence key realised by `Chains.Less`: default flag (defaults
last), token count (fewer first), then whether the first token's pattern
is non-empty (empty first — so `false`, i.e. empty, sorts first). -/
def chainKey (c : Chain) : Bool × Nat × Bool :=
  (c.isDefault, (c.tokens.length, c.headExpr != ""))

/-- The precedence key as the claim states it: identical except that a
non-empty first pattern is claimed to sort before an empty one. -/
def c1SpecKey (c : Chain) : Bool × Nat × Bool :=
  (c.isDefault, (c.tokens.length, c.headExpr == ""))

/-- whether a chain would be accepted by the scan's own matching rules
for this path: token count equal to the segment count, or smaller with
the tail flag, and every token matching its segment. -/
def eligibleMatch (path : List String) (ch : Chain) : Bool :=
  (ch.tokens.length == path.length ||
    (decide (ch.tokens.length < path.length) && ch.flags &&& flagChainEnableTail != 0)) &&
  (tokensMatch ch.tokens path == some true)

/-- whether the last chain of the (sorted) list is a default chain — the
only thing the fallback of `Chains.Find` inspects. -/
def lastDefault (c : Chains) : Bool :=
  match c.chains.getLast? with
  | some (some ch) => ch.isDefault
  | _ => false

/-- A token failing at least one of the validation checks of
`Chains.Prepare` (empty destination name; unresolvable or
non-string/non-integer destination field; empty pattern in a chain of
more than one token; unparsable pattern). -/
def tokenInvalid (schema : Schema) (compile : String → Option (String → Bool))
    (nTokens : Nat) (t : Token) : Bool :=
  t.varName == "" ||
  (t.varName != varIgnore &&
    (match lookupKind schema t.varName with
     | none => true
     | some k => !kindOk k)) ||
  (t.expr == "" && decide (nTokens > 1)) ||
  (compile (anchor t.expr)).isNone

/-- Number of defects `Chains.Prepare` reports for one chain: one for an
empty chain, else one per invalid token. -/
def chainDefectCount (schema : Schema) (compile : String → Option (String → Bool))
    (ch : Chain) : Nat :=
  if ch.tokens.length == 0 then 1
  else (ch.tokens.filter (tokenInvalid schema compile ch.tokens.length)).length

/-- A chain with at least one validation defect. -/
def chainInvalid (schema : Schema) (compile : String → Option (String → Bool))
    (ch : Chain) : Bool :=
  chainDefectCount schema compile ch != 0

/-- Pointwise order used to state that the chain list carries no
precedence inversion: a later live chain is never strictly less than an
earlier one (nil entries are unconstrained). -/
def sortedLe (x y : Option Chain) : Bool :=
  match x, y with
  | some a, some b => !(chainLess false b a)
  | _, _ => true

/-- A live chain-list entry: non-nil with at least one token (what a
successful `Prepare` guarantees for every entry). -/
def chainOk (oc : Option Chain) : Bool :=
  match oc with
  | none => false
  | some ch => ch.tokens.length != 0

/-- The compacted chain list after the validation loop of
`Chains.Prepare`, still in registration order (tokens carry their
compiled matchers; names, flags and patterns are untouched). -/
def validChains (compile : String → Option (String → Bool)) (c : Chains) : List Chain :=
  ((c.chains.filterMap id).enum.map
    (fun p => prepChain c.pathParams compile p.1 p.2)).map Prod.fst

/-- The non-discard destination names of a chain, in token order. -/
def nonDiscardNames (ch : Chain) : List String :=
  (ch.tokens.filter (fun t => t.varName != varIgnore)).map Token.varName

/-- Zero token, used as the out-of-range default of positional token
access in statements. -/
def dTok : Token := { expr := "", varName := "" }

/-- Zero chain, used as the out-of-range default of positional chain
access in statements. -/
def dChain : Chain := {}

/-! ## Concrete instances for witnesses and counterexamples -/

/-- A concrete host pattern facility for concrete inputs: compilation
fails on a pattern containing `[` (standing for an unparsable pattern
such as the test's pattern bracket-d-plus), and a bracket-free pattern
matches exactly its literal text — the anchored `^(expr)$` matches `s`
iff `s = expr`.  Theorems about `Prepare`/`Find` are quantified over an
arbitrary compile function; this one only instantiates witnesses. -/
def compileLit (p : String) : Option (String → Bool) :=
  if p.data.contains '[' then none
  else some (fun s => anchor s == p)

/-- An unprepared token with pattern `e` and destination `v`. -/
def tok (e v : String) : Token := { expr := e, varName := v }

/-- A token as `Prepare` leaves it when compiled by `compileLit`. -/
def wTok (e v : String) : Token :=
  { expr := e, varName := v, re := some (fun s => anchor s == anchor e) }

/-- One-field schema used by the small instances. -/
def schemaTp : Schema := [("Tp", FieldKind.str)]

/-- C1 counterexample input: two one-token, non-default chains, the
chain with the non-empty pattern registered first. -/
def cexC1 : Chains :=
  { pathParams := schemaTp,
    chains := [some { name := "A", tokens := [tok "x" "Tp"] },
               some { name := "B", tokens := [tok "" "Tp"] }] }

/-- C2 counterexample input: a prepared chain set with an empty chain
list (`Chains.Prepare` succeeds on an empty list, so this state is
reachable). -/
def cexC2 : Chains := { pathParams := [], chains := [], prepared := true }

/-- C3 counterexample input, before preparation: one chain binding its
second segment into an unsigned integer field. -/
def cexC3pre : Chains :=
  { pathParams := [("A", FieldKind.str), ("B", FieldKind.u64)],
    chains := [some { name := "c", tokens := [tok "x" "A", tok "abc" "B"] }] }

/-- C3 counterexample input: the prepared state. -/
def cexC3 : Chains := (Chains.Prepare compileLit cexC3pre).1

/-- C4 counterexample input, before preparation: a single default chain
whose only token has the non-empty pattern `x`. -/
def cexC4pre : Chains :=
  { pathParams := schemaTp,
    chains := [some { name := "d", flags := 1, tokens := [tok "x" "Tp"] }] }

/-- C4 counterexample input: the prepared state. -/
def cexC4 : Chains := (Chains.Prepare compileLit cexC4pre).1

/-- C7 counterexample input, before preparation. -/
def cexC7pre : Chains :=
  { pathParams := schemaTp,
    chains := [some { name := "a", tokens := [tok "x" "Tp"] }] }

/-- C7 counterexample input: a chain set on which `Prepare` has
succeeded. -/
def cexC7 : Chains := (Chains.Prepare compileLit cexC7pre).1

/-- C8 counterexample input, before preparation: one chain whose two
non-discard tokens share the destination name `A`. -/
def cexC8pre : Chains :=
  { pathParams := [("A", FieldKind.str)],
    chains := [some { name := "c", tokens := [tok "x" "A", tok "y" "A"] }] }

/-- C8 counterexample input: the prepared state. -/
def cexC8 : Chains := (Chains.Prepare compileLit cexC8pre).1

/-- A prepared literal (non-default) one-token chain. -/
def wChainLit : Chain := { name := "lit", tokens := [wTok "x" "Tp"] }

/-- A prepared default one-token chain. -/
def wChainDflt : Chain := { name := "dflt", flags := 1, tokens := [wTok "y" "Tp"] }

/-- Witness chain set for the fallback claims: a literal chain followed
by a default chain, prepared, sorted by the precedence order. -/
def wC2 : Chains :=
  { pathParams := schemaTp,
    chains := [some wChainLit, some wChainDflt],
    prepared := true }

/-- Witness input for the sort claim: the five-chain scenario of the
repository's own test, in its unsorted registration order. -/
def wC1 : Chains :=
  { pathParams := [("Tp", FieldKind.str), ("GID", FieldKind.u64),
                   ("ID", FieldKind.u64), ("Status", FieldKind.str)],
    chains := [
      some { name := "c1", tokens := [tok "group" "Tp", tok "7" "GID", tok "active" "Status"] },
      some { name := "c2", tokens := [tok "active" "Status"] },
      some { name := "c3", tokens := [tok "7" "ID"] },
      some { name := "c4", tokens := [tok "group" "Tp", tok "7" "GID"] },
      some { name := "c5", tokens := [tok "" "Tp"] }] }

/-- Witness input for the misconfiguration claim: an empty chain, a nil
slot, and a chain with both an illegally placed empty pattern and an
unparsable pattern. -/
def wC6 : Chains :=
  { pathParams := schemaTp,
    chains := [some { name := "e", tokens := [] },
               none,
               some { name := "f", tokens := [tok "" "Tp", tok "[x" "Tp"] }] }

/-- Witness chain set for the empty-path claim: the empty-pattern chain
first, a literal chain second, prepared. -/
def wC4 : Chains :=
  { pathParams := schemaTp,
    chains := [some { name := "c5", tokens := [wTok "" "Tp"] },
               some { name := "c3", tokens := [wTok "d" "Tp"] }],
    prepared := true }

/-- Witness chain for the round-trip claim: two non-discard tokens with
distinct destination fields. -/
def wC8ch : Chain :=
  { name := "c4", tokens := [wTok "group" "Tp", wTok "335" "GID"] }

/-- Witness chain set for the round-trip claim. -/
def wC8 : Chains :=
  { pathParams := [("Tp", FieldKind.str), ("GID", FieldKind.u64)],
    chains := [some wC8ch],
    prepared := true }

/-- Witness chain set for the `.info` claim: its only chain's pattern
literally matches the segment `.info`. -/
def wC10chains : Chains :=
  { pathParams := schemaTp,
    chains := [some { name := "info", tokens := [wTok ".info" "Tp"] }],
    prepared := true }

/-- Witness method set for the `.info` claim. -/
def wSet : Set := { methods := [("GET", wC10chains)] }

/-- The result `Chains.Find wC2 ["z"]` evaluates to:
no chain matches `z` literally, so the default chain wins and binds. -/
def wC2res : FindResult :=
  ⟨some wChainDflt, some [("Tp", FieldValue.vStr "z")], 0, []⟩

/-- The result `Chains.Find cexC3 ["x", "abc"]` evaluates to: the chain
matches, converting `abc` into the integer field `B` fails, the match is
reset, the partially bound record and the aggregated error remain. -/
def cexC3res : FindResult :=
  ⟨none, some [("A", FieldValue.vStr "x"), ("B", FieldValue.vInt 0)], 0,
    ["cannot convert \"abc\" to an integer"]⟩

/-- The record `Chains.Find wC8 ["group", "335"]` binds. -/
def wC8pr : ParamRecord :=
  [("Tp", FieldValue.vStr "group"), ("GID", FieldValue.vInt 335)]

/-- The result `Chains.Find wC8 ["group", "335"]` evaluates to. -/
def wC8res : FindResult := ⟨some wC8ch, some wC8pr, 0, []⟩

/-- C5 counterexample input, before preparation: a two-token non-default
chain, a one-token default chain whose pattern is `x`, and a two-token
default chain — `Chains.Prepare` accepts all three. -/
def cexC5pre : Chains :=
  { pathParams := schemaTp,
    chains := [some { name := "N", tokens := [tok "a" "Tp", tok "b" "Tp"] },
               some { name := "D1", flags := 1, tokens := [tok "x" "Tp"] },
               some { name := "D2", flags := 1, tokens := [tok "c" "Tp", tok "d" "Tp"] }] }

/-- C5 counterexample input: the prepared state.  The sort leaves
`[N, D1, D2]` — token counts 2, 1, 2, not globally ascending, because
default status is compared before token count. -/
def cexC5 : Chains := (Chains.Prepare compileLit cexC5pre).1

/-! ## Helper lemmas -/

theorem clone_token_id (t : Token) : Token.Clone t = t := rfl

theorem clone_chain_id (ch : Chain) : Chain.Clone ch = ch := by
  unfold Chain.Clone
  rw [show Token.Clone = id from rfl, List.map_id]

theorem clone_chains_id (c : Chains) : Chains.Clone c = c := by
  unfold Chains.Clone ChainsList.Clone
  rw [show (fun oc : Option Chain => Option.map Chain.Clone oc) = id from
    funext fun oc => by cases oc <;> simp [clone_chain_id], List.map_id]

/-- Binding against the empty path never converts anything: every token
is either a discard or hits the `i >= len(path)` break at once. -/
theorem bindTokens_nil_path (schema : Schema) :
    ∀ (ts : List Token) (i : Nat) (pr : ParamRecord) (msgs : List String),
      bindTokens schema [] ts i pr msgs = some (pr, msgs) := by
  intro ts
  induction ts with
  | nil => intro i pr msgs; rfl
  | cons t ts ih =>
    intro i pr msgs
    by_cases h : t.varName == varIgnore
    · simp [bindTokens, h, ih]
    · simp [bindTokens, h]

/-- If `bindPhase` reports an error, the match was reset, the code kept
its pre-binding success value, and the record is still handed back. -/
theorem bindPhase_err (c : Chains) (path : List String) (ch : Chain) (r : FindResult)
    (h : bindPhase c path ch = some r) (he : r.err ≠ []) :
    r.matched = none ∧ r.code = 0 ∧ r.pathParams.isSome = true := by
  unfold bindPhase at h
  cases hb : bindTokens c.pathParams path ch.tokens 0 (zeroRecord c.pathParams) [] with
  | none => rw [hb] at h; cases h
  | some pm =>
    obtain ⟨pr, msgs⟩ := pm
    rw [hb] at h
    by_cases hm : msgs.isEmpty
    · simp [hm] at h
      subst h
      simp at he
    · simp [hm] at h
      subst h
      exact ⟨rfl, rfl, rfl⟩

/-- Binding a chain against the empty path allocates the zero record and
reports the chain as matched with success code 0. -/
theorem bindPhase_nil_path (c : Chains) (ch : Chain) :
    bindPhase c [] ch = some ⟨some ch, some (zeroRecord c.pathParams), 0, []⟩ := by
  unfold bindPhase
  rw [bindTokens_nil_path]
  rfl

/-- On a prepared chain set, `Chains.Find` is the fallback applied to
the selection phase's outcome. -/
theorem find_eq_fallback (c : Chains) (path : List String) (sel : Option Chain)
    (hp : c.prepared = true) (hs : selectChain c path = some sel) :
    Chains.Find c path = fallback c path sel := by
  unfold Chains.Find
  rw [hp]
  simp only [Bool.true_eq_false, if_false]
  rw [hs]

/-- The fallback with no selected chain, spelled out through the last
chain of the list. -/
theorem fallback_none_eq (c : Chains) (path : List String) (last : Chain)
    (hl : c.chains.getLast? = some (some last)) :
    fallback c path none =
      if last.flags &&& flagChainDefault = 0 then
        some ⟨none, none, 404, []⟩
      else bindPhase c path last := by
  unfold fallback
  rw [hl]

theorem isDefault_iff (ch : Chain) :
    ch.isDefault = true ↔ ch.flags &&& flagChainDefault ≠ 0 := by
  unfold Chain.isDefault
  exact bne_iff_ne

theorem isDefault_false_iff (ch : Chain) :
    ch.isDefault = false ↔ ch.flags &&& flagChainDefault = 0 := by
  cases hb : ch.isDefault with
  | true =>
    simp only [Bool.true_eq_false, false_iff]
    exact (isDefault_iff ch).mp hb
  | false =>
    simp only [true_iff]
    by_contra hne
    have := (isDefault_iff ch).mpr hne
    rw [hb] at this
    cases this

/-- In a `Pairwise`-ordered list, every element either is the last one
or stands in the order relation to it. -/
theorem pairwise_rel_getLast {α : Type} (R : α → α → Prop) :
    ∀ (l : List α) (b : α), l.Pairwise R → l.getLast? = some b →
      ∀ a ∈ l, a = b ∨ R a b := by
  intro l
  induction l with
  | nil => intro b _ h; cases h
  | cons x t ih =>
    intro b hpw hl a ha
    obtain ⟨hx, hpw'⟩ := List.pairwise_cons.mp hpw
    cases t with
    | nil =>
      have hxb : x = b := by
        have : some x = some b := by simpa using hl
        injection this
      have hax : a = x := by simpa using ha
      exact Or.inl (hax.trans hxb)
    | cons y t' =>
      have hl' : (y :: t').getLast? = some b := by
        simpa [List.getLast?_cons_cons] using hl
      rcases List.mem_cons.mp ha with rfl | hmem
      · exact Or.inr (hx b (List.mem_of_getLast?_eq_some hl'))
      · exact ih b hpw' hl' a hmem

/-- A non-empty chain list of live entries has a last, non-nil chain. -/
theorem exists_getLast_some (l : List (Option Chain)) (hlen : 0 < l.length)
    (hsome : ∀ oc ∈ l, oc.isSome = true) :
    ∃ last, l.getLast? = some (some last) := by
  cases hl : l.getLast? with
  | none =>
    rw [List.getLast?_eq_none_iff] at hl
    subst hl
    simp at hlen
  | some oc =>
    have hs := hsome oc (List.mem_of_getLast?_eq_some hl)
    cases oc with
    | none => simp at hs
    | some last => exact ⟨last, rfl⟩

theorem length_foldr_append (L : List (List String)) :
    (L.foldr (fun a b => a ++ b) []).length = (L.map List.length).sum := by
  induction L with
  | nil => rfl
  | cons x t ih => simp [ih]

theorem sum_enumFrom_snd {β : Type} (g : β → Nat) :
    ∀ (l : List β) (k : Nat),
      ((l.enumFrom k).map (fun p => g p.2)).sum = (l.map g).sum := by
  intro l
  induction l with
  | nil => intro k; rfl
  | cons x t ih =>
    intro k
    rw [List.enumFrom_cons]
    simp [ih]

theorem sum_if_filter {β : Type} (f : β → Bool) (l : List β) :
    (l.map (fun x => if f x then 1 else 0)).sum = (l.filter f).length := by
  induction l with
  | nil => rfl
  | cons x t ih =>
    by_cases hf : f x = true
    · simp [List.filter_cons, hf, ih, Nat.add_comm]
    · simp only [Bool.not_eq_true] at hf
      simp [List.filter_cons, hf, ih]

/-- The validation of one token produces exactly one message when the
token is invalid and none otherwise. -/
theorem prepToken_msgs_length (schema : Schema)
    (compile : String → Option (String → Bool)) (n ci ti : Nat) (t : Token) :
    (prepToken schema compile n ci ti t).2.length
      = if tokenInvalid schema compile n t then 1 else 0 := by
  unfold prepToken tokenInvalid
  by_cases h1 : (t.varName == "") = true
  · simp [h1]
  · simp only [h1, Bool.false_or, if_neg h1]
    by_cases h2 : (t.varName != varIgnore) = true
    · simp only [h2, Bool.true_and]
      cases hlk : lookupKind schema t.varName with
      | none => simp [hlk]
      | some k =>
        by_cases h3 : kindOk k = true
        · simp only [hlk, h3, Bool.not_true]
          simp only [List.isEmpty_nil, Bool.not_true, Bool.false_eq_true, if_false,
            Bool.false_or]
          by_cases h4 : (t.expr == "" && decide (n > 1)) = true
          · simp [h4]
          · simp only [h4, if_neg h4, Bool.false_or]
            cases hc : compile (anchor t.expr) with
            | none => simp [hc]
            | some re => simp [hc]
        · simp only [Bool.not_eq_true] at h3
          simp [hlk, h3]
    · simp only [Bool.not_eq_true] at h2
      simp only [h2, Bool.false_and, Bool.false_or]
      simp only [List.isEmpty_nil, Bool.not_true, Bool.false_eq_true, if_false]
      by_cases h4 : (t.expr == "" && decide (n > 1)) = true
      · simp [h2, h4]
      · simp only [h2, h4, if_neg h4, Bool.false_or]
        cases hc : compile (anchor t.expr) with
        | none => simp [hc]
        | some re => simp [hc]

/-- The validation of one chain produces exactly one message per defect:
one for an empty chain, one per invalid token otherwise. -/
theorem prepChain_msgs_length (schema : Schema)
    (compile : String → Option (String → Bool)) (ci : Nat) (ch : Chain) :
    (prepChain schema compile ci ch).2.length
      = chainDefectCount schema compile ch := by
  unfold prepChain chainDefectCount
  by_cases h : (ch.tokens.length == 0) = true
  · simp [h]
  · rw [if_neg h, if_neg h]
    rw [length_foldr_append, List.map_map, List.map_map]
    rw [show ((List.length ∘ Prod.snd) ∘
          fun p : Nat × Token => prepToken schema compile ch.tokens.length ci p.1 p.2)
        = (fun p : Nat × Token =>
            if tokenInvalid schema compile ch.tokens.length p.2 then 1 else 0) from
      funext fun p => prepToken_msgs_length schema compile ch.tokens.length ci p.1 p.2]
    exact (sum_enumFrom_snd
        (fun t => if tokenInvalid schema compile ch.tokens.length t then 1 else 0)
        ch.tokens 0).trans
      (sum_if_filter (tokenInvalid schema compile ch.tokens.length) ch.tokens)

/-- On an unprepared chain set, `Prepare` reports exactly one message
per defect of the compacted chain list. -/
theorem Prepare_msgs_length (compile : String → Option (String → Bool))
    (c : Chains) (hp : c.prepared = false) :
    (Chains.Prepare compile c).2.length
      = ((c.chains.filterMap id).map (chainDefectCount c.pathParams compile)).sum := by
  unfold Chains.Prepare
  rw [if_neg (by simp [hp])]
  have hm : (((( (c.chains.filterMap id).enum.map
        (fun p => prepChain c.pathParams compile p.1 p.2))).map Prod.snd).foldr
          (fun a b => a ++ b) []).length
      = ((c.chains.filterMap id).map (chainDefectCount c.pathParams compile)).sum := by
    rw [length_foldr_append, List.map_map, List.map_map]
    rw [show ((List.length ∘ Prod.snd) ∘
          fun p : Nat × Chain => prepChain c.pathParams compile p.1 p.2)
        = (fun p : Nat × Chain => chainDefectCount c.pathParams compile p.2) from
      funext fun p => prepChain_msgs_length c.pathParams compile p.1 p.2]
    exact sum_enumFrom_snd (chainDefectCount c.pathParams compile)
      (c.chains.filterMap id) 0
  by_cases he : ((((c.chains.filterMap id).enum.map
      (fun p => prepChain c.pathParams compile p.1 p.2)).map Prod.snd).foldr
        (fun a b => a ++ b) []).isEmpty = true
  · rw [if_pos he]
    rw [List.isEmpty_iff] at he
    rw [he] at hm
    simpa using hm
  · rw [if_neg he]
    exact hm

theorem setField_cons (p : String × FieldValue) (t : ParamRecord)
    (n : String) (v : FieldValue) :
    setField (p :: t) n v
      = (if (p.1 == n) = true then (p.1, v) else p) :: setField t n v := rfl

theorem getField_cons (q : String × FieldValue) (t : ParamRecord) (m : String) :
    getField (q :: t) m
      = if (q.1 == m) = true then some q.2 else getField t m := rfl

theorem getField_setField_ne (n m : String) (v : FieldValue) (h : m ≠ n) :
    ∀ pr : ParamRecord, getField (setField pr n v) m = getField pr m := by
  intro pr
  induction pr with
  | nil => rfl
  | cons p t ih =>
    rw [setField_cons]
    by_cases hn : (p.1 == n) = true
    · have hm : (p.1 == m) = false := by
        rw [eq_of_beq hn]
        exact beq_false_of_ne (fun hEq => h hEq.symm)
      rw [if_pos hn, getField_cons, getField_cons]
      simp only [hm, Bool.false_eq_true, if_false]
      exact ih
    · rw [if_neg hn, getField_cons, getField_cons]
      by_cases hm : (p.1 == m) = true
      · simp only [hm, if_true]
      · simp only [hm, if_false]
        exact ih

theorem getField_setField_found (n : String) (v : FieldValue) :
    ∀ pr : ParamRecord, (getField pr n).isSome = true →
      getField (setField pr n v) n = some v := by
  intro pr
  induction pr with
  | nil => intro h; simp [getField] at h
  | cons p t ih =>
    intro h
    rw [setField_cons]
    by_cases hn : (p.1 == n) = true
    · rw [if_pos hn, getField_cons]
      simp only [hn, if_true]
    · rw [if_neg hn, getField_cons]
      simp only [hn, if_false]
      rw [getField_cons] at h
      simp only [hn, if_false] at h
      exact ih h

theorem getField_setField_isSome (n m : String) (v : FieldValue) :
    ∀ pr : ParamRecord,
      (getField (setField pr n v) m).isSome = (getField pr m).isSome := by
  intro pr
  induction pr with
  | nil => rfl
  | cons p t ih =>
    rw [setField_cons]
    by_cases hn : (p.1 == n) = true
    · rw [if_pos hn, getField_cons, getField_cons]
      by_cases hm : (p.1 == m) = true
      · simp only [hm, if_true]
        rfl
      · simp only [hm, if_false]
        exact ih
    · rw [if_neg hn, getField_cons, getField_cons]
      by_cases hm : (p.1 == m) = true
      · simp only [hm, if_true]
      · simp only [hm, if_false]
        exact ih

theorem getField_zeroRecord_isSome (schema : Schema) (m : String) :
    (getField (zeroRecord schema) m).isSome = (lookupKind schema m).isSome := by
  induction schema with
  | nil => rfl
  | cons p t ih =>
    show (getField ((p.1, zeroValue p.2) :: zeroRecord t) m).isSome
      = (lookupKind (p :: t) m).isSome
    rw [getField_cons]
    by_cases hm : (p.1 == m) = true
    · simp only [hm, if_true]
      unfold lookupKind
      rw [if_pos hm]
      rfl
    · simp only [hm, if_false]
      unfold lookupKind
      rw [if_neg hm]
      exact ih

/-- Error messages accumulated by the binder only grow. -/
theorem bindTokens_msgs_grow (schema : Schema) (path : List String) :
    ∀ (ts : List Token) (i : Nat) (pr0 : ParamRecord) (msgs0 : List String)
      (pr : ParamRecord) (msgs : List String),
      bindTokens schema path ts i pr0 msgs0 = some (pr, msgs) →
      ∃ extra, msgs = msgs0 ++ extra := by
  intro ts
  induction ts with
  | nil =>
    intro i pr0 msgs0 pr msgs h
    injection h with h'
    injection h' with _ h2
    exact ⟨[], by simp [h2.symm]⟩
  | cons t ts ih =>
    intro i pr0 msgs0 pr msgs h
    unfold bindTokens at h
    by_cases h1 : (t.varName == varIgnore) = true
    · rw [if_pos h1] at h
      exact ih _ _ _ _ _ h
    · rw [if_neg h1] at h
      by_cases h2 : path.length ≤ i
      · rw [if_pos h2] at h
        injection h with h'
        injection h' with _ h3
        exact ⟨[], by simp [h3.symm]⟩
      · rw [if_neg h2] at h
        cases hlk : lookupKind schema t.varName with
        | none => rw [hlk] at h; cases h
        | some k =>
          rw [hlk] at h
          have h3 : (match convert k (path.getD i "") with
              | Except.ok v => bindTokens schema path ts (i + 1) (setField pr0 t.varName v) msgs0
              | Except.error e => bindTokens schema path ts (i + 1) pr0 (msgs0 ++ [e]))
              = some (pr, msgs) := h
          cases hcv : convert k (path.getD i "") with
          | ok v => rw [hcv] at h3; exact ih _ _ _ _ _ h3
          | error e =>
            rw [hcv] at h3
            obtain ⟨extra, hx⟩ := ih _ _ _ _ _ h3
            exact ⟨e :: extra, by simp [hx]⟩

/-- The binder never touches a field whose name is not among the
remaining non-discard destination names. -/
theorem bindTokens_frozen (schema : Schema) (path : List String) :
    ∀ (ts : List Token) (i : Nat) (pr0 : ParamRecord) (msgs0 : List String)
      (pr : ParamRecord) (msgs : List String) (m : String),
      bindTokens schema path ts i pr0 msgs0 = some (pr, msgs) →
      (∀ t ∈ ts, t.varName ≠ varIgnore → t.varName ≠ m) →
      getField pr m = getField pr0 m := by
  intro ts
  induction ts with
  | nil =>
    intro i pr0 msgs0 pr msgs m h _
    injection h with h'
    injection h' with h2 _
    rw [h2.symm]
  | cons t ts ih =>
    intro i pr0 msgs0 pr msgs m h hnames
    unfold bindTokens at h
    by_cases h1 : (t.varName == varIgnore) = true
    · rw [if_pos h1] at h
      exact ih _ _ _ _ _ _ h (fun t' ht' => hnames t' (List.mem_cons_of_mem t ht'))
    · rw [if_neg h1] at h
      by_cases h2 : path.length ≤ i
      · rw [if_pos h2] at h
        injection h with h'
        injection h' with h3 _
        rw [h3.symm]
      · rw [if_neg h2] at h
        cases hlk : lookupKind schema t.varName with
        | none => rw [hlk] at h; cases h
        | some k =>
          rw [hlk] at h
          have h3 : (match convert k (path.getD i "") with
              | Except.ok v => bindTokens schema path ts (i + 1) (setField pr0 t.varName v) msgs0
              | Except.error e => bindTokens schema path ts (i + 1) pr0 (msgs0 ++ [e]))
              = some (pr, msgs) := h
          cases hcv : convert k (path.getD i "") with
          | error e =>
            rw [hcv] at h3
            exact ih _ _ _ _ _ _ h3 (fun t' ht' => hnames t' (List.mem_cons_of_mem t ht'))
          | ok v =>
            rw [hcv] at h3
            have hrest :=
              ih _ _ _ _ _ _ h3 (fun t' ht' => hnames t' (List.mem_cons_of_mem t ht'))
            rw [hrest]
            exact getField_setField_ne t.varName m v
              (fun hEq => hnames t (List.mem_cons_self t ts)
                (fun hIg => h1 (beq_iff_eq.mpr hIg)) hEq.symm) pr0

/-- The isSome-profile of the record is invariant under binding. -/
theorem bindTokens_isSome_inv (schema : Schema) (path : List String) :
    ∀ (ts : List Token) (i : Nat) (pr0 : ParamRecord) (msgs0 : List String)
      (pr : ParamRecord) (msgs : List String) (m : String),
      bindTokens schema path ts i pr0 msgs0 = some (pr, msgs) →
      (getField pr m).isSome = (getField pr0 m).isSome := by
  intro ts
  induction ts with
  | nil =>
    intro i pr0 msgs0 pr msgs m h
    injection h with h'
    injection h' with h2 _
    rw [h2.symm]
  | cons t ts ih =>
    intro i pr0 msgs0 pr msgs m h
    unfold bindTokens at h
    by_cases h1 : (t.varName == varIgnore) = true
    · rw [if_pos h1] at h
      exact ih _ _ _ _ _ _ h
    · rw [if_neg h1] at h
      by_cases h2 : path.length ≤ i
      · rw [if_pos h2] at h
        injection h with h'
        injection h' with h3 _
        rw [h3.symm]
      · rw [if_neg h2] at h
        cases hlk : lookupKind schema t.varName with
        | none => rw [hlk] at h; cases h
        | some k =>
          rw [hlk] at h
          have h3 : (match convert k (path.getD i "") with
              | Except.ok v => bindTokens schema path ts (i + 1) (setField pr0 t.varName v) msgs0
              | Except.error e => bindTokens schema path ts (i + 1) pr0 (msgs0 ++ [e]))
              = some (pr, msgs) := h
          cases hcv : convert k (path.getD i "") with
          | error e => rw [hcv] at h3; exact ih _ _ _ _ _ _ h3
          | ok v =>
            rw [hcv] at h3
            rw [ih _ _ _ _ _ _ h3]
            exact getField_setField_isSome t.varName m v pr0

/-- Round trip of the binder: when binding ends with no error and the
non-discard destination names are distinct, every token bound within the
path reads back as the converted value of its own segment. -/
theorem bindTokens_roundtrip (schema : Schema) (path : List String) :
    ∀ (ts : List Token) (i : Nat) (pr0 : ParamRecord) (msgs0 : List String)
      (pr : ParamRecord),
      bindTokens schema path ts i pr0 msgs0 = some (pr, []) →
      (∀ m, (getField pr0 m).isSome = (lookupKind schema m).isSome) →
      ((ts.filter (fun t => t.varName != varIgnore)).map Token.varName).Nodup →
      ∀ j, j < ts.length → i + j < path.length →
        (ts.getD j dTok).varName ≠ varIgnore →
        ∃ k v, lookupKind schema ((ts.getD j dTok).varName) = some k ∧
          convert k (path.getD (i + j) "") = Except.ok v ∧
          getField pr ((ts.getD j dTok).varName) = some v := by
  intro ts
  induction ts with
  | nil =>
    intro i pr0 msgs0 pr _ _ _ j hj _ _
    simp at hj
  | cons t ts ih =>
    intro i pr0 msgs0 pr hbind hinv hnodup j hj hjp hv
    unfold bindTokens at hbind
    by_cases h1 : (t.varName == varIgnore) = true
    · rw [if_pos h1] at hbind
      have hnodup' :
          ((ts.filter (fun t => t.varName != varIgnore)).map Token.varName).Nodup := by
        have : (t.varName != varIgnore) = false := by
          simp [eq_of_beq h1]
        simpa [List.filter_cons, this] using hnodup
      cases j with
      | zero =>
        exact absurd (by simpa using eq_of_beq h1) hv
      | succ j' =>
        have hres := ih (i + 1) pr0 msgs0 pr hbind hinv hnodup' j'
          (by simpa using Nat.lt_of_succ_lt_succ hj)
          (by omega)
          (by simpa using hv)
        have hx : i + 1 + j' = i + (j' + 1) := by omega
        rw [hx] at hres
        simpa using hres
    · rw [if_neg h1] at hbind
      by_cases h2 : path.length ≤ i
      · exact absurd hjp (by omega)
      · rw [if_neg h2] at hbind
        cases hlk : lookupKind schema t.varName with
        | none => rw [hlk] at hbind; cases hbind
        | some k =>
          rw [hlk] at hbind
          have h3 : (match convert k (path.getD i "") with
              | Except.ok v =>
                bindTokens schema path ts (i + 1) (setField pr0 t.varName v) msgs0
              | Except.error e =>
                bindTokens schema path ts (i + 1) pr0 (msgs0 ++ [e]))
              = some (pr, []) := hbind
          cases hcv : convert k (path.getD i "") with
          | error e =>
            rw [hcv] at h3
            obtain ⟨extra, hx⟩ := bindTokens_msgs_grow schema path ts _ _ _ _ _ h3
            simp at hx
          | ok v =>
            rw [hcv] at h3
            have hfil : (t.varName != varIgnore) = true := by
              simpa using h1
            have hnodup2 := hnodup
            rw [List.filter_cons, if_pos hfil, List.map_cons] at hnodup2
            obtain ⟨hnotin, hnodup'⟩ := List.nodup_cons.mp hnodup2
            cases j with
            | zero =>
              refine ⟨k, v, by simpa using hlk, by simpa using hcv, ?_⟩
              have hfroz : getField pr t.varName
                  = getField (setField pr0 t.varName v) t.varName := by
                apply bindTokens_frozen schema path ts _ _ _ _ _ _ h3
                intro t' ht' hni hEq
                apply hnotin
                rw [← hEq]
                exact List.mem_map_of_mem Token.varName
                  (List.mem_filter.mpr ⟨ht', by simpa using hni⟩)
              have hget : getField (setField pr0 t.varName v) t.varName = some v := by
                apply getField_setField_found
                rw [hinv t.varName, hlk]
                rfl
              simpa using hfroz.trans hget
            | succ j' =>
              have hinv' : ∀ m, (getField (setField pr0 t.varName v) m).isSome
                  = (lookupKind schema m).isSome := fun m =>
                (getField_setField_isSome t.varName m v pr0).trans (hinv m)
              have hres := ih (i + 1) (setField pr0 t.varName v) msgs0 pr h3
                hinv' hnodup' j'
                (by simpa using Nat.lt_of_succ_lt_succ hj)
                (by omega)
                (by simpa using hv)
              have hx : i + 1 + j' = i + (j' + 1) := by omega
              rw [hx] at hres
              simpa using hres

/-- A `bindPhase` result reporting a matched chain pins that chain, a
successful binding and an empty error. -/
theorem bindPhase_matched (c : Chains) (path : List String) (ch0 : Chain)
    (r : FindResult) (ch : Chain)
    (h : bindPhase c path ch0 = some r) (hm : r.matched = some ch) :
    ch0 = ch ∧ ∃ pr, r.pathParams = some pr ∧ r.err = [] ∧
      bindTokens c.pathParams path ch0.tokens 0 (zeroRecord c.pathParams) []
        = some (pr, []) := by
  unfold bindPhase at h
  cases hb : bindTokens c.pathParams path ch0.tokens 0 (zeroRecord c.pathParams) [] with
  | none => rw [hb] at h; cases h
  | some pm =>
    obtain ⟨pr, msgs⟩ := pm
    rw [hb] at h
    have h4 : (if msgs.isEmpty = true then
        (some ⟨some ch0, some pr, 0, []⟩ : Option FindResult)
      else some ⟨none, some pr, 0, msgs⟩) = some r := h
    by_cases hme : msgs.isEmpty = true
    · rw [if_pos hme] at h4
      injection h4 with h'
      subst h'
      simp only at hm
      injection hm with hm'
      rw [List.isEmpty_iff] at hme
      subst hme
      exact ⟨hm', pr, rfl, rfl, rfl⟩
    · rw [if_neg hme] at h4
      injection h4 with h'
      subst h'
      simp at hm

/-- A `Chains.Find` result reporting a matched chain came out of a
successful binding of exactly that chain. -/
theorem find_matched_bind (c : Chains) (path : List String) (r : FindResult)
    (ch : Chain) (hf : Chains.Find c path = some r) (hm : r.matched = some ch) :
    ∃ pr, r.pathParams = some pr ∧ r.err = [] ∧
      bindTokens c.pathParams path ch.tokens 0 (zeroRecord c.pathParams) []
        = some (pr, []) := by
  unfold Chains.Find at hf
  by_cases hp : c.prepared = false
  · rw [if_pos hp] at hf
    injection hf with h'
    subst h'
    simp at hm
  · rw [if_neg hp] at hf
    cases hsel : selectChain c path with
    | none => rw [hsel] at hf; cases hf
    | some sel =>
      rw [hsel] at hf
      cases sel with
      | some ch0 =>
        obtain ⟨heq, pr, h1, h2, h3⟩ := bindPhase_matched c path ch0 r ch hf hm
        exact ⟨pr, h1, h2, heq ▸ h3⟩
      | none =>
        have hf1 : fallback c path none = some r := hf
        unfold fallback at hf1
        cases hl : c.chains.getLast? with
        | none => rw [hl] at hf1; cases hf1
        | some oc =>
          rw [hl] at hf1
          cases oc with
          | none => cases hf1
          | some last =>
            have hf2 :
                (if last.flags &&& flagChainDefault = 0 then
                  (some ⟨none, none, 404, []⟩ : Option FindResult)
                else bindPhase c path last) = some r := hf1
            by_cases hd : last.flags &&& flagChainDefault = 0
            · rw [if_pos hd] at hf2
              injection hf2 with h'
              subst h'
              simp at hm
            · rw [if_neg hd] at hf2
              obtain ⟨heq, pr, h1, h2, h3⟩ := bindPhase_matched c path last r ch hf2 hm
              exact ⟨pr, h1, h2, heq ▸ h3⟩

theorem keyLtB_irrefl (a : Bool × Nat × Bool) : keyLtB a a = false := by
  obtain ⟨a1, a2, a3⟩ := a
  simp [keyLtB]

theorem keyLtB_asym (a b : Bool × Nat × Bool) :
    keyLtB a b = true → keyLtB b a = false := by
  obtain ⟨a1, a2, a3⟩ := a
  obtain ⟨b1, b2, b3⟩ := b
  cases a1 <;> cases b1 <;> cases a3 <;> cases b3 <;>
    simp [keyLtB] <;> omega

theorem keyLtB_negtrans (a b c : Bool × Nat × Bool) :
    keyLtB a b = false → keyLtB b c = false → keyLtB a c = false := by
  obtain ⟨a1, a2, a3⟩ := a
  obtain ⟨b1, b2, b3⟩ := b
  obtain ⟨c1, c2, c3⟩ := c
  cases a1 <;> cases b1 <;> cases c1 <;> cases a3 <;> cases b3 <;> cases c3 <;>
    simp [keyLtB] <;> omega

/-- The comparator of `Chains.Less` (with the positional tie-break
forced to false, as in the library's insertion sort) is exactly the
strict lexicographic order on the precedence key. -/
theorem chainLess_eq_keyLt (x y : Chain) :
    chainLess false x y = keyLtB (chainKey x) (chainKey y) := by
  unfold chainLess chainKey keyLtB Chain.isDefault
  have hx : x.flags &&& flagChainDefault = x.flags % 2 := by
    rw [flagChainDefault]; exact Nat.and_one_is_mod _
  have hy : y.flags &&& flagChainDefault = y.flags % 2 := by
    rw [flagChainDefault]; exact Nat.and_one_is_mod _
  rw [hx, hy]
  rcases Nat.mod_two_eq_zero_or_one x.flags with h1 | h1 <;>
    rcases Nat.mod_two_eq_zero_or_one y.flags with h2 | h2 <;>
    rw [h1, h2] <;>
    [skip; simp; simp; skip] <;>
  · simp only [bne_self_eq_false, Bool.false_eq_true, if_false, beq_self_eq_true,
      Bool.true_and, Bool.and_self, Bool.false_and, Bool.false_or, Bool.not_false]
    by_cases hl : x.tokens.length = y.tokens.length
    · simp only [hl, bne_self_eq_false, Bool.false_eq_true, if_false,
        Nat.lt_irrefl, decide_eq_false_iff_not, beq_self_eq_true, Bool.true_and]
      by_cases he : (x.headExpr == "") = true
      · have he' : (x.headExpr != "") = false := by
          simp [bne]; exact eq_of_beq he
        simp [he, he', decide_eq_false (Nat.lt_irrefl _)]
      · have he' : (x.headExpr != "") = true := by
          simpa [bne] using he
        simp [he, he', decide_eq_false (Nat.lt_irrefl _)]
    · have hl' : (x.tokens.length != y.tokens.length) = true := bne_iff_ne.mpr hl
      have hl2 : (x.tokens.length == y.tokens.length) = false :=
        beq_false_of_ne hl
      simp [hl', hl2]

/-- `chainLess false` is asymmetric. -/
theorem chainLess_asym (a b : Chain) :
    chainLess false a b = true → chainLess false b a = false := by
  rw [chainLess_eq_keyLt, chainLess_eq_keyLt]
  exact keyLtB_asym _ _

/-- non-strictness of `chainLess false` is transitive. -/
theorem chainLess_negtrans (a b c : Chain) :
    chainLess false a b = false → chainLess false b c = false →
      chainLess false a c = false := by
  rw [chainLess_eq_keyLt, chainLess_eq_keyLt, chainLess_eq_keyLt]
  exact keyLtB_negtrans _ _ _

/-- A strictly smaller chain has a different precedence key. -/
theorem chainLess_key_ne (a b : Chain) :
    chainLess false a b = true → chainKey b ≠ chainKey a := by
  rw [chainLess_eq_keyLt]
  intro h hEq
  rw [hEq] at h
  rw [keyLtB_irrefl] at h
  cases h

/-- A non-default chain that does not sort strictly before another
chain is at least as long: in the precedence key, only a default flag
on the other side could excuse a greater length. -/
theorem keyLt_false_len_le (ch ch0 : Chain)
    (hnd : ch.isDefault = false)
    (hL : keyLtB (chainKey ch) (chainKey ch0) = false) :
    ch0.tokens.length ≤ ch.tokens.length := by
  unfold chainKey keyLtB at hL
  rw [hnd] at hL
  cases hd0 : ch0.isDefault with
  | true =>
    rw [hd0] at hL
    simp at hL
  | false =>
    rw [hd0] at hL
    simp at hL
    omega

theorem bubbleIns_eq {α : Type} (lt : α → α → Bool) (e : α) :
    ∀ rp : List α, bubbleIns lt e rp
      = rp.takeWhile (fun x => lt e x) ++ e :: rp.dropWhile (fun x => lt e x) := by
  intro rp
  induction rp with
  | nil => rfl
  | cons x rp ih =>
    unfold bubbleIns
    by_cases hx : lt e x = true
    · simp [hx, List.takeWhile_cons, List.dropWhile_cons, ih]
    · simp [hx, List.takeWhile_cons, List.dropWhile_cons]

theorem pairwise_bubbleIns {α : Type} (lt : α → α → Bool)
    (hasym : ∀ a b, lt a b = true → lt b a = false)
    (hnt : ∀ a b c, lt a b = false → lt b c = false → lt a c = false)
    (e : α) :
    ∀ rp : List α, rp.Pairwise (fun a b => lt a b = false) →
      (bubbleIns lt e rp).Pairwise (fun a b => lt a b = false) := by
  intro rp
  induction rp with
  | nil => intro _; simp [bubbleIns]
  | cons x rp ih =>
    intro hpw
    obtain ⟨hx, hpw'⟩ := List.pairwise_cons.mp hpw
    unfold bubbleIns
    by_cases hex : lt e x = true
    · rw [if_pos hex]
      apply List.pairwise_cons.mpr
      constructor
      · intro y hy
        rw [bubbleIns_eq] at hy
        rcases List.mem_append.mp hy with h1 | h2
        · exact hx y ((List.takeWhile_sublist _).subset h1)
        · rcases List.mem_cons.mp h2 with h3 | h4
          · rw [h3]; exact hasym e x hex
          · exact hx y ((List.dropWhile_sublist _).subset h4)
      · exact ih hpw'
    · rw [if_neg hex]
      have hex' : lt e x = false := by simpa using hex
      apply List.pairwise_cons.mpr
      refine ⟨?_, hpw⟩
      intro y hy
      rcases List.mem_cons.mp hy with h3 | hyr
      · rw [h3]; exact hex'
      · exact hnt e x y hex' (hx y hyr)

theorem pairwise_foldl_bubbleIns {α : Type} (lt : α → α → Bool)
    (hasym : ∀ a b, lt a b = true → lt b a = false)
    (hnt : ∀ a b c, lt a b = false → lt b c = false → lt a c = false) :
    ∀ (l rp : List α), rp.Pairwise (fun a b => lt a b = false) →
      (l.foldl (fun rp e => bubbleIns lt e rp) rp).Pairwise
        (fun a b => lt a b = false) := by
  intro l
  induction l with
  | nil => intro rp h; simpa using h
  | cons e l ih =>
    intro rp h
    exact ih _ (pairwise_bubbleIns lt hasym hnt e rp h)

/-- The output of the library's insertion sort carries no inversion:
no later element is strictly less than an earlier one. -/
theorem goInsertionSort_sorted {α : Type} (lt : α → α → Bool)
    (hasym : ∀ a b, lt a b = true → lt b a = false)
    (hnt : ∀ a b c, lt a b = false → lt b c = false → lt a c = false)
    (l : List α) :
    (goInsertionSort lt l).Pairwise (fun a b => lt b a = false) := by
  unfold goInsertionSort
  rw [List.pairwise_reverse]
  exact pairwise_foldl_bubbleIns lt hasym hnt l [] (by simp)

theorem filter_bubbleIns {α : Type} (p : α → Bool) (lt : α → α → Bool)
    (hk : ∀ a b, lt a b = true → p a = true → p b = false) (e : α) :
    ∀ rp : List α, (bubbleIns lt e rp).filter p
      = if p e = true then e :: rp.filter p else rp.filter p := by
  intro rp
  have hsplit : rp.filter p
      = (rp.takeWhile (fun x => lt e x)).filter p
        ++ (rp.dropWhile (fun x => lt e x)).filter p := by
    rw [← List.filter_append, List.takeWhile_append_dropWhile]
  rw [bubbleIns_eq, List.filter_append]
  by_cases hpe : p e = true
  · rw [if_pos hpe]
    have htw : (rp.takeWhile (fun x => lt e x)).filter p = [] := by
      rw [List.filter_eq_nil_iff]
      intro a ha
      have hlt : lt e a = true := by
        simpa using List.mem_takeWhile_imp ha
      simp [hk e a hlt hpe]
    rw [htw, hsplit, htw]
    simp [List.filter_cons, hpe]
  · rw [if_neg hpe]
    have hpe' : p e = false := by simpa using hpe
    rw [hsplit]
    simp [List.filter_cons, hpe']

theorem filter_foldl_bubbleIns {α : Type} (p : α → Bool) (lt : α → α → Bool)
    (hk : ∀ a b, lt a b = true → p a = true → p b = false) :
    ∀ (l rp : List α),
      ((l.foldl (fun rp e => bubbleIns lt e rp) rp).filter p).reverse
        = (rp.filter p).reverse ++ l.filter p := by
  intro l
  induction l with
  | nil => intro rp; simp
  | cons e l ih =>
    intro rp
    simp only [List.foldl_cons]
    rw [ih (bubbleIns lt e rp), filter_bubbleIns p lt hk e rp]
    by_cases hpe : p e = true
    · rw [if_pos hpe]
      simp [List.filter_cons, hpe]
    · rw [if_neg hpe]
      have hpe' : p e = false := by simpa using hpe
      simp [List.filter_cons, hpe']

/-- Stability of the library's insertion sort: within every precedence
class (elements selected by a class predicate that strict comparison
separates) the output keeps exactly the input's subsequence — ties
preserve registration order. -/
theorem goInsertionSort_stable {α : Type} (p : α → Bool) (lt : α → α → Bool)
    (hk : ∀ a b, lt a b = true → p a = true → p b = false) (l : List α) :
    (goInsertionSort lt l).filter p = l.filter p := by
  unfold goInsertionSort
  rw [List.filter_reverse]
  have h := filter_foldl_bubbleIns p lt hk l []
  simp only [List.filter_nil, List.reverse_nil, List.nil_append] at h
  rw [h]

theorem filterMap_id_map_some {α : Type} (l : List α) :
    (l.map some).filterMap id = l := by
  induction l with
  | nil => rfl
  | cons x t ih => simp [ih]

/-- On success, `Prepare` stores the sorted validated chains and flips
the `prepared` flag. -/
theorem Prepare_success_chains (compile : String → Option (String → Bool))
    (c : Chains) (hp : c.prepared = false)
    (hok : (Chains.Prepare compile c).2 = []) :
    (Chains.Prepare compile c).1.chains
      = (sortSort (validChains compile c)).map some ∧
    (Chains.Prepare compile c).1.prepared = true := by
  unfold Chains.Prepare at hok ⊢
  rw [if_neg (by simp [hp])] at hok ⊢
  by_cases he : ((((c.chains.filterMap id).enum.map
      (fun p => prepChain c.pathParams compile p.1 p.2)).map Prod.snd).foldr
        (fun a b => a ++ b) []).isEmpty = true
  · rw [if_pos he]
    exact ⟨rfl, rfl⟩
  · rw [if_neg he] at hok
    have he2 : ((((c.chains.filterMap id).enum.map
        (fun p => prepChain c.pathParams compile p.1 p.2)).map Prod.snd).foldr
          (fun a b => a ++ b) []) = [] := hok
    rw [he2] at he
    simp at he

/-! ## Claim theorems -/

/-- C9: determinism of lookup — two invocations of `Chains.Find` on the
same prepared chain set with the same segments return the same matched
chain, the same bound parameter record, the same status discriminator
and the same error.  `Chains.Find` embeds as a pure function of the
chain-set value and the segment list: it reads no other state, so the
two results coincide componentwise. -/
theorem C9_deterministic (c : Chains) (path : List String) (r1 r2 : FindResult)
    (h1 : Chains.Find c path = some r1) (h2 : Chains.Find c path = some r2) :
    r1.matched = r2.matched ∧ r1.pathParams = r2.pathParams ∧
      r1.code = r2.code ∧ r1.err = r2.err := by
  rw [h1] at h2
  injection h2 with h
  subst h
  exact ⟨rfl, rfl, rfl, rfl⟩

/-- Witness for C9 at a concrete prepared chain set and path. -/
theorem C9_witness :
    wC2res.matched = wC2res.matched ∧ wC2res.pathParams = wC2res.pathParams ∧
      wC2res.code = wC2res.code ∧ wC2res.err = wC2res.err :=
  C9_deterministic wC2 ["z"] wC2res wC2res rfl rfl

/-- C10: for a dispatch method whose chain set exists and is non-empty,
`Set.Find` on the single segment `.info` returns the Set itself as the
reflective result with status 200, a nil matched chain and nil bound
parameters — the chain scan and the parameter binder are never
consulted, whatever the registered patterns are. -/
theorem C10_info (s : Set) (m : Method) (c : Chains)
    (hm : s.findMethod m = some c) (hne : c.chains.length ≠ 0) :
    Set.Find s m [".info"] = some ⟨none, none, some s, 200, []⟩ := by
  unfold Set.Find
  rw [hm]
  simp [hne]

/-- Witness for C10: the registered chain's pattern literally matches
`.info`, yet the reflective answer is returned. -/
theorem C10_witness :
    Set.Find wSet "GET" [".info"] = some ⟨none, none, some wSet, 200, []⟩ :=
  C10_info wSet "GET" wC10chains rfl (by decide)

/-- C2 counterexample: the claim promises that, with no literal match
and no default chain, `Chains.Find` returns a not-found discriminator —
but on a prepared chain set with an empty chain list (`Chains.Prepare`
succeeds on an empty list) the Go code instead panics indexing
`chains.Chains[len(chains.Chains)-1]`; the panic is the `none` result. -/
theorem C2_counterexample : Chains.Find cexC2 ["x"] = none := rfl

/-- C2 (amended): on a prepared chain set with a *non-empty* list of
live chains carrying no precedence inversion, if the selection phase
(empty-path special case or scan) produces no literal match, then: with
no default chain anywhere the result is exactly the not-found answer
(code 404, no chain, no params, no error); if the last chain is default
it becomes the match handed to the binder — with success code 0 and the
matched chain returned whenever binding succeeds; and a default chain
existing anywhere implies the last chain is default (so the fallback
sees it).  The non-emptiness proviso is forced: on an empty prepared
chain list the Go code panics instead of returning not-found. -/
theorem C2_fallback (c : Chains) (path : List String)
    (hp : c.prepared = true)
    (hlen : 0 < c.chains.length)
    (hsome : ∀ oc ∈ c.chains, oc.isSome = true)
    (hsorted : c.chains.Pairwise (fun x y => sortedLe x y = true))
    (hsel : selectChain c path = some none) :
    ((∀ ch : Chain, some ch ∈ c.chains → ch.isDefault = false) →
        Chains.Find c path = some ⟨none, none, 404, []⟩) ∧
    (∀ last, c.chains.getLast? = some (some last) → last.isDefault = true →
        Chains.Find c path = bindPhase c path last) ∧
    (∀ last pr msgs, c.chains.getLast? = some (some last) → last.isDefault = true →
        bindTokens c.pathParams path last.tokens 0 (zeroRecord c.pathParams) []
          = some (pr, msgs) →
        msgs = [] →
        Chains.Find c path = some ⟨some last, some pr, 0, []⟩) ∧
    ((∃ ch : Chain, some ch ∈ c.chains ∧ ch.isDefault = true) →
        lastDefault c = true) := by
  obtain ⟨last, hl⟩ := exists_getLast_some c.chains hlen hsome
  have hfind : Chains.Find c path = fallback c path none :=
    find_eq_fallback c path none hp hsel
  have hfb := fallback_none_eq c path last hl
  refine ⟨?_, ?_, ?_, ?_⟩
  · intro hnod
    have hdflt : last.isDefault = false :=
      hnod last (List.mem_of_getLast?_eq_some hl)
    have hd : last.flags &&& flagChainDefault = 0 :=
      (isDefault_false_iff last).mp hdflt
    rw [hfind, hfb, if_pos hd]
  · intro last' hl' hdef
    rw [hl] at hl'
    injection hl' with h1
    injection h1 with h2
    subst h2
    have hd : ¬ last.flags &&& flagChainDefault = 0 :=
      (isDefault_iff last).mp hdef
    rw [hfind, hfb, if_neg hd]
  · intro last' pr msgs hl' hdef hb hm
    rw [hl] at hl'
    injection hl' with h1
    injection h1 with h2
    subst h2
    have hd : ¬ last.flags &&& flagChainDefault = 0 :=
      (isDefault_iff last).mp hdef
    rw [hfind, hfb, if_neg hd]
    unfold bindPhase
    rw [hb]
    subst hm
    rfl
  · rintro ⟨ch, hmem, hdef⟩
    rcases pairwise_rel_getLast _ c.chains (some last) hsorted hl (some ch) hmem
      with heq | hrel
    · injection heq with h
      subst h
      simp [lastDefault, hl, hdef]
    · have hld : lastDefault c = last.isDefault := by simp [lastDefault, hl]
      rw [hld]
      by_contra h3
      have h4 : last.flags &&& flagChainDefault = 0 := by
        rcases Bool.eq_false_or_eq_true last.isDefault with ht | hf
        · exact absurd ht h3
        · exact (isDefault_false_iff last).mp hf
      have h5 : ch.flags &&& flagChainDefault ≠ 0 :=
        (isDefault_iff ch).mp hdef
      have hL : chainLess false last ch = false := by
        simpa [sortedLe] using hrel
      unfold chainLess at hL
      rw [if_pos (show ((last.flags &&& flagChainDefault
            != ch.flags &&& flagChainDefault) = true) from
          bne_iff_ne.mpr (by rw [h4]; exact fun hEq => h5 hEq.symm))] at hL
      rw [h4] at hL
      simp at hL

/-- Witness for C2 (amended): no chain's pattern matches the segment
`z`, so the default chain becomes the match and binds `z` into `Tp`. -/
theorem C2_witness :
    Chains.Find wC2 ["z"]
      = some ⟨some wChainDflt, some [("Tp", FieldValue.vStr "z")], 0, []⟩ :=
  (C2_fallback wC2 ["z"] rfl (by decide) (by decide) (by decide) rfl).2.2.1
    wChainDflt [("Tp", FieldValue.vStr "z")] [] rfl (by decide) rfl rfl

/-- C3 counterexample: on a prepared chain whose second segment fails
integer conversion, `Chains.Find` does reset the match and return the
aggregated error, but the status discriminator keeps its pre-binding
success value 0 (it is never set to 404), and the partially populated
record (field `A` already bound to `x`) is still returned in the
`pathParams` slot — both contradicting the claim. -/
theorem C3_counterexample :
    (Chains.Find cexC3 ["x", "abc"]).map FindResult.code = some 0 ∧
    (Chains.Find cexC3 ["x", "abc"]).map (fun r => r.matched.isNone) = some true ∧
    (Chains.Find cexC3 ["x", "abc"]).bind FindResult.pathParams
      = some [("A", FieldValue.vStr "x"), ("B", FieldValue.vInt 0)] ∧
    (Chains.Find cexC3 ["x", "abc"]).map (fun r => r.err.isEmpty) = some false := by
  refine ⟨by decide, by decide, by decide, by decide⟩

/-- C3 (amended): if a prepared `Chains.Find` call returns with a
non-empty aggregated error, the matched chain has been reset to `none`;
the status discriminator, however, keeps the success value 0 rather than
becoming not-found, and the freshly allocated record — with whatever
fields converted before and after the failure — is still returned in the
params slot; callers must treat the error and the nil match, not the
status, as authoritative. -/
theorem C3_conversion_failure (c : Chains) (path : List String) (r : FindResult)
    (hp : c.prepared = true)
    (hf : Chains.Find c path = some r)
    (he : r.err ≠ []) :
    r.matched = none ∧ r.code = 0 ∧ r.pathParams.isSome = true := by
  unfold Chains.Find at hf
  rw [hp] at hf
  simp only [Bool.true_eq_false, if_false] at hf
  cases hsel : selectChain c path with
  | none => rw [hsel] at hf; cases hf
  | some sel =>
    rw [hsel] at hf
    cases sel with
    | some ch => exact bindPhase_err c path ch r hf he
    | none =>
      have hf1 : fallback c path none = some r := hf
      unfold fallback at hf1
      cases hl : c.chains.getLast? with
      | none => rw [hl] at hf1; cases hf1
      | some oc =>
        rw [hl] at hf1
        cases oc with
        | none => cases hf1
        | some last =>
          have hf2 :
              (if last.flags &&& flagChainDefault = 0 then
                (some ⟨none, none, 404, []⟩ : Option FindResult)
              else bindPhase c path last) = some r := hf1
          by_cases hd : last.flags &&& flagChainDefault = 0
          · rw [if_pos hd] at hf2
            injection hf2 with h
            subst h
            simp at he
          · rw [if_neg hd] at hf2
            exact bindPhase_err c path last r hf2 he

/-- Witness for C3 (amended) at the concrete failing conversion. -/
theorem C3_witness :
    cexC3res.matched = none ∧ cexC3res.code = 0 ∧ cexC3res.pathParams.isSome = true :=
  C3_conversion_failure cexC3 ["x", "abc"] cexC3res rfl rfl (by decide)

/-- C7 counterexample: `Chains.Clone` of a chain set on which `Prepare`
has succeeded copies the `prepared` flag (`new := *chains`), so the
clone is *not* unprepared and `Prepare` on it fails with
"already prepared" — contradicting the claim for prepared originals. -/
theorem C7_counterexample :
    (Chains.Clone cexC7).prepared = true ∧
    (Chains.Prepare compileLit (Chains.Clone cexC7)).2 = ["already prepared"] := by
  refine ⟨rfl, rfl⟩

/-- C7 (amended): `Chains.Clone` is a structurally identical copy of the
chain set (in Go it allocates fresh chain and token structures; pointer
freshness is invisible to this functional model).  The `prepared` flag
is copied with the rest: a clone of an unprepared original behaves under
`Prepare` exactly as the original, while a clone of a prepared original
is itself prepared and a further `Prepare` fails with
"already prepared". -/
theorem C7_clone (c : Chains) :
    Chains.Clone c = c ∧
    (∀ compile, c.prepared = false →
      Chains.Prepare compile (Chains.Clone c) = Chains.Prepare compile c) ∧
    (∀ compile, c.prepared = true →
      (Chains.Prepare compile (Chains.Clone c)).2 = ["already prepared"]) := by
  have hc : Chains.Clone c = c := clone_chains_id c
  refine ⟨hc, ?_, ?_⟩
  · intro compile _
    rw [hc]
  · intro compile hp
    rw [hc]
    unfold Chains.Prepare
    rw [hp]
    simp

/-- Witness for C7 (amended) at a prepared concrete chain set. -/
theorem C7_witness :
    (Chains.Prepare compileLit (Chains.Clone cexC7)).2 = ["already prepared"] :=
  (C7_clone cexC7).2.2 compileLit rfl

/-- C1 counterexample: the claim's clause about first-token patterns is
backwards.  Registering the non-empty-pattern chain `A` before the
empty-pattern chain `B` (both one-token, non-default), a successful
`Prepare` stores `[B, A]` — `Chains.Less` line 514 puts the EMPTY
first-token pattern first (which also makes the empty-path special case
find it at index 0).  The prepared list therefore violates the claimed
order (non-empty before empty), stated here as the key `c1SpecKey`. -/
theorem C1_counterexample :
    ¬ (((Chains.Prepare compileLit cexC1).1.chains.filterMap id).Pairwise
        (fun x y => keyLtB (c1SpecKey y) (c1SpecKey x) = false)) := by
  decide

/-- C1 (amended): after a successful `Chains.Prepare` on a registration
list of at most 12 chains (the insertion-sort path of Go's `sort.Sort`;
beyond 12 the library switches to an unstable quicksort and the
position-dependent comparator voids its contract), the stored chain list
is the validated registration-order list (`validChains`) sorted by the
precedence key — non-default before default, fewer tokens first, and,
among equal token counts, an EMPTY first-token pattern before a
non-empty one: (i) the list is exactly the sorted permutation, (ii) it
carries no precedence inversion, and (iii) every precedence class keeps
its registration order (stability, stated as filter invariance per key). -/
theorem C1_sorted (compile : String → Option (String → Bool)) (c : Chains)
    (hp : c.prepared = false)
    (hok : (Chains.Prepare compile c).2 = [])
    (_hlen : (c.chains.filterMap id).length ≤ 12) :
    (Chains.Prepare compile c).1.chains
      = (sortSort (validChains compile c)).map some ∧
    ((Chains.Prepare compile c).1.chains.filterMap id).Pairwise
      (fun x y => chainLess false y x = false) ∧
    (∀ k0 : Bool × Nat × Bool,
      ((Chains.Prepare compile c).1.chains.filterMap id).filter
          (fun ch => chainKey ch == k0)
        = (validChains compile c).filter (fun ch => chainKey ch == k0)) := by
  obtain ⟨hchains, _⟩ := Prepare_success_chains compile c hp hok
  have hfm : ((sortSort (validChains compile c)).map some).filterMap id
      = sortSort (validChains compile c) := filterMap_id_map_some _
  refine ⟨hchains, ?_, ?_⟩
  · rw [hchains, hfm]
    exact goInsertionSort_sorted (chainLess false) chainLess_asym
      chainLess_negtrans (validChains compile c)
  · intro k0
    rw [hchains, hfm]
    apply goInsertionSort_stable (fun ch => chainKey ch == k0) (chainLess false)
    intro a b hab hpa
    exact beq_false_of_ne
      (fun hEq => chainLess_key_ne a b hab (hEq.trans (eq_of_beq hpa).symm))

/-- Witness for C1 (amended) at the repository's own five-chain test
scenario (`c1..c5`, registered unsorted). -/
theorem C1_witness :
    (Chains.Prepare compileLit wC1).1.chains
      = (sortSort (validChains compileLit wC1)).map some ∧
    ((Chains.Prepare compileLit wC1).1.chains.filterMap id).Pairwise
      (fun x y => chainLess false y x = false) ∧
    ((Chains.Prepare compileLit wC1).1.chains.filterMap id).filter
        (fun ch => chainKey ch == (false, 1, false))
      = (validChains compileLit wC1).filter
        (fun ch => chainKey ch == (false, 1, false)) :=
  ⟨(C1_sorted compileLit wC1 rfl (by decide) (by decide)).1,
   (C1_sorted compileLit wC1 rfl (by decide) (by decide)).2.1,
   (C1_sorted compileLit wC1 rfl (by decide) (by decide)).2.2 (false, 1, false)⟩

/-- C6: on an unprepared chain set whose compacted chain list contains
at least one invalid chain, `Chains.Prepare` returns a non-empty
aggregated error whose message count is exactly the total defect count —
one message per empty chain and one per invalid token, across *all*
chains (validation does not stop at the first failure) — the `prepared`
flag stays false, and `Chains.Find` on the resulting state still answers
the misuse error (500, "not prepared") for every path. -/
theorem C6_aggregate (compile : String → Option (String → Bool)) (c : Chains)
    (hp : c.prepared = false)
    (hbad : (c.chains.filterMap id).any (chainInvalid c.pathParams compile) = true) :
    (Chains.Prepare compile c).2 ≠ [] ∧
    (Chains.Prepare compile c).2.length
      = ((c.chains.filterMap id).map (chainDefectCount c.pathParams compile)).sum ∧
    (Chains.Prepare compile c).1.prepared = false ∧
    (∀ path, Chains.Find (Chains.Prepare compile c).1 path
        = some ⟨none, none, 500, ["not prepared"]⟩) := by
  have hlen := Prepare_msgs_length compile c hp
  have hpos : 0 <
      ((c.chains.filterMap id).map (chainDefectCount c.pathParams compile)).sum := by
    obtain ⟨ch, hmem, hinv⟩ := List.any_eq_true.mp hbad
    have hne : chainDefectCount c.pathParams compile ch ≠ 0 := by
      have := bne_iff_ne.mp hinv
      simpa [chainInvalid] using this
    have hle : chainDefectCount c.pathParams compile ch ≤
        ((c.chains.filterMap id).map (chainDefectCount c.pathParams compile)).sum :=
      List.single_le_sum (fun x _ => Nat.zero_le x) _
        (List.mem_map_of_mem (chainDefectCount c.pathParams compile) hmem)
    exact Nat.lt_of_lt_of_le (Nat.pos_of_ne_zero hne) hle
  have h1 : (Chains.Prepare compile c).2 ≠ [] := by
    intro h
    rw [h] at hlen
    simp at hlen
    omega
  have h3 : (Chains.Prepare compile c).1.prepared = false := by
    unfold Chains.Prepare at h1 ⊢
    rw [if_neg (by simp [hp])] at h1 ⊢
    by_cases he : ((((c.chains.filterMap id).enum.map
        (fun p => prepChain c.pathParams compile p.1 p.2)).map Prod.snd).foldr
          (fun a b => a ++ b) []).isEmpty = true
    · rw [if_pos he] at h1
      exact absurd rfl h1
    · rw [if_neg he]
      exact hp
  refine ⟨h1, hlen, h3, ?_⟩
  intro path
  unfold Chains.Find
  rw [h3, if_pos rfl]

/-- Witness for C6 at a misconfigured concrete chain set: one empty
chain, one nil slot, one chain with an illegally placed empty pattern
and an unparsable pattern (three messages in one pass). -/
theorem C6_witness :
    (Chains.Prepare compileLit wC6).2 ≠ [] ∧
    (Chains.Prepare compileLit wC6).2.length
      = ((wC6.chains.filterMap id).map (chainDefectCount wC6.pathParams compileLit)).sum ∧
    (Chains.Prepare compileLit wC6).1.prepared = false ∧
    Chains.Find (Chains.Prepare compileLit wC6).1 ["q"]
      = some ⟨none, none, 500, ["not prepared"]⟩ :=
  ⟨(C6_aggregate compileLit wC6 rfl (by decide)).1,
   (C6_aggregate compileLit wC6 rfl (by decide)).2.1,
   (C6_aggregate compileLit wC6 rfl (by decide)).2.2.1,
   (C6_aggregate compileLit wC6 rfl (by decide)).2.2.2 ["q"]⟩

/-- C8 counterexample: a chain whose two non-discard tokens share the
destination name `A` passes `Prepare`, matches `["x", "y"]` with no
binding error — but the record's field `A` reads back `y`, not token 0's
segment `x`: the bound values do not reproduce the original segments. -/
theorem C8_counterexample :
    (Chains.Find cexC8 ["x", "y"]).map (fun r => r.matched.isSome) = some true ∧
    (Chains.Find cexC8 ["x", "y"]).map (fun r => r.err.isEmpty) = some true ∧
    ((Chains.Find cexC8 ["x", "y"]).bind FindResult.pathParams).bind
        (fun pr => getField pr "A") = some (FieldValue.vStr "y") ∧
    FieldValue.vStr "y" ≠ FieldValue.vStr "x" := by
  refine ⟨rfl, rfl, rfl, by decide⟩

/-- C8 (amended): round-trip of parameter binding, for chains whose
non-discard destination names are distinct (the Go code validates no
such distinctness; with a repeated name the later segment overwrites the
earlier one, see the counterexample).  If `Chains.Find` reports a
matched chain and a record, then for every position `i` covered by both
the chain's tokens and the path whose token is not the discard sentinel,
the destination field holds exactly the converted segment: the identical
string for a string field, the parsed integer for an integer-family
field (`convert` is the spec-modelled binder). -/
theorem C8_roundtrip (c : Chains) (path : List String) (r : FindResult)
    (ch : Chain) (pr : ParamRecord)
    (hf : Chains.Find c path = some r)
    (hm : r.matched = some ch)
    (hpr : r.pathParams = some pr)
    (hnd : (nonDiscardNames ch).Nodup)
    (i : Nat) (hi : i < ch.tokens.length) (hip : i < path.length)
    (hv : (ch.tokens.getD i dTok).varName ≠ varIgnore) :
    ∃ k v, lookupKind c.pathParams ((ch.tokens.getD i dTok).varName) = some k ∧
      convert k (path.getD i "") = Except.ok v ∧
      getField pr ((ch.tokens.getD i dTok).varName) = some v := by
  obtain ⟨pr', hpr', herr, hbind⟩ := find_matched_bind c path r ch hf hm
  rw [hpr] at hpr'
  injection hpr' with hpe
  subst hpe
  have hres := bindTokens_roundtrip c.pathParams path ch.tokens 0
    (zeroRecord c.pathParams) [] pr hbind
    (fun m => getField_zeroRecord_isSome c.pathParams m)
    hnd i hi (by simpa using hip) hv
  simpa using hres

/-- Witness for C8 (amended) at the concrete two-token chain and path
`["group", "335"]`, position 1 (the integer field `GID`). -/
theorem C8_witness :
    ∃ k v, lookupKind wC8.pathParams ((wC8ch.tokens.getD 1 dTok).varName) = some k ∧
      convert k (["group", "335"].getD 1 "") = Except.ok v ∧
      getField wC8pr ((wC8ch.tokens.getD 1 dTok).varName) = some v :=
  C8_roundtrip wC8 ["group", "335"] wC8res wC8ch wC8pr rfl rfl rfl
    (by decide) 1 (by decide) (by decide) (by decide)

/-- C4 counterexample: on a prepared chain set whose designated first
chain is a single-token default chain with the non-empty pattern `x`,
`Chains.Find []` nevertheless succeeds (the default-chain fallback fires
after the scan stops), refuting the claimed "only if" direction of the
empty-path special case. -/
theorem C4_counterexample :
    (Chains.Find cexC4 []).map (fun r => r.matched.isSome) = some true ∧
    emptySpecial cexC4 = false := by
  refine ⟨by decide, by decide⟩

/-- C4 (amended): on a prepared chain set whose entries are all live
(non-nil, at least one token — what a successful `Prepare` guarantees),
`Chains.Find` with the empty segment list succeeds if and only if the
first chain of the sorted list has exactly one token with the empty
pattern, or the last chain is a default chain (the fallback makes the
default chain match the empty path as well; its binding is vacuous). -/
theorem C4_empty_path (c : Chains)
    (hp : c.prepared = true)
    (hok : ∀ oc ∈ c.chains, chainOk oc = true)
    (hlen : 0 < c.chains.length) :
    (Chains.Find c []).map (fun r => r.matched.isSome)
      = some (emptySpecial c || lastDefault c) := by
  cases hc : c.chains with
  | nil => rw [hc] at hlen; simp at hlen
  | cons oc rest =>
    have h0 : chainOk oc = true := hok oc (hc ▸ List.mem_cons_self oc rest)
    cases oc with
    | none => simp [chainOk] at h0
    | some ch0 =>
      have h0' : ch0.tokens.length ≠ 0 := by simpa [chainOk] using h0
      by_cases hsp : ch0.tokens.length = 1 ∧ ch0.headExpr = ""
      · have hsel : selectChain c [] = some (some ch0) := by
          unfold selectChain
          rw [if_pos (by simp), hc]
          simp only [List.head?_cons]
          rw [if_pos hsp]
        rw [find_eq_fallback c [] (some ch0) hp hsel]
        have he : emptySpecial c = true := by
          simp [emptySpecial, hc, hsp.1, hsp.2]
        rw [he]
        simp [fallback, bindPhase_nil_path]
      · have hsel : selectChain c [] = some none := by
          unfold selectChain
          rw [if_pos (by simp), hc]
          simp only [List.head?_cons]
          rw [if_neg hsp]
          unfold scanChains
          rw [if_neg (by simp)]
          rw [if_pos (by simpa [Nat.pos_iff_ne_zero] using h0')]
        rw [find_eq_fallback c [] none hp hsel]
        have he : emptySpecial c = false := by
          simp only [emptySpecial, hc, List.head?_cons]
          by_cases h1 : ch0.tokens.length = 1
          · have h2 : ch0.headExpr ≠ "" := fun h => hsp ⟨h1, h⟩
            simp [h1, h2]
          · simp [h1]
        rw [he]
        have hlast : ∃ last, c.chains.getLast? = some (some last) := by
          cases hl : c.chains.getLast? with
          | none =>
            rw [List.getLast?_eq_none_iff] at hl
            rw [hl] at hc
            cases hc
          | some oc' =>
            have hmem : oc' ∈ c.chains := List.mem_of_getLast?_eq_some hl
            have hok' := hok oc' hmem
            cases oc' with
            | none => simp [chainOk] at hok'
            | some last => exact ⟨last, rfl⟩
        obtain ⟨last, hl⟩ := hlast
        rw [fallback_none_eq c [] last hl]
        have hld : lastDefault c = last.isDefault := by
          simp [lastDefault, hl]
        rw [hld]
        by_cases hd : last.flags &&& flagChainDefault = 0
        · rw [if_pos hd]
          simp [Chain.isDefault, hd]
        · rw [if_neg hd]
          simp [Chain.isDefault, hd, bindPhase_nil_path]

/-- C5 counterexample: on the reachable prepared list `[N, D1, D2]`
(token counts 2, 1, 2 — `Chains.Less` compares the default flag before
the token count, so counts are not globally ascending), the scan for the
single segment `x` stops at `N` (2 tokens > 1 segment) and never tests
`D1`, the one-token default chain whose pattern matches `x` literally;
the deferred fallback then returns the last chain `D2` instead.  The
short-circuit does skip a chain that could have matched literally,
refuting the claim's completeness assertion and its premise that
prepared chains are sorted ascending by token count. -/
theorem C5_counterexample :
    scanChains ["x"] cexC5.chains = some none ∧
    ((cexC5.chains.filterMap id).getD 1 dChain).name = "D1" ∧
    eligibleMatch ["x"] ((cexC5.chains.filterMap id).getD 1 dChain) = true ∧
    (Chains.Find cexC5 ["x"]).map (fun r => r.matched.map Chain.name)
      = some (some "D2") := by
  refine ⟨rfl, by decide, by decide, by decide⟩

/-- C5 (amended): the scan over the sorted chain list skips a chain
whose token count is below the segment count unless it is tail-enabled;
it stops with "no match" at the first chain whose token count exceeds
the segment count; a tail-enabled shorter chain whose declared tokens
all match the leading segments is taken; and the short-circuit never
skips a NON-DEFAULT chain that could have matched literally, because
the precedence order keeps the non-default chains, ascending by token
count, ahead of every default chain.  The original stronger guarantee
is false: token counts ascend only within each default class, so a
default chain shorter than a preceding non-default chain is skipped by
the stop even when it matches literally (see the counterexample; the
fallback then still answers with the last default chain). -/
theorem C5_scan (path : List String) :
    (∀ (ch : Chain) (rest : List (Option Chain)),
        ch.tokens.length < path.length → ch.flags &&& flagChainEnableTail = 0 →
        scanChains path (some ch :: rest) = scanChains path rest) ∧
    (∀ (ch : Chain) (rest : List (Option Chain)),
        path.length < ch.tokens.length →
        scanChains path (some ch :: rest) = some none) ∧
    (∀ (ch : Chain) (rest : List (Option Chain)),
        ch.tokens.length < path.length → ch.flags &&& flagChainEnableTail ≠ 0 →
        tokensMatch ch.tokens path = some true →
        scanChains path (some ch :: rest) = some (some ch)) ∧
    (∀ cs : List (Option Chain),
        cs.Pairwise (fun x y => sortedLe x y = true) →
        scanChains path cs = some none →
        ∀ ch : Chain, some ch ∈ cs → ch.isDefault = false →
          eligibleMatch path ch = false) := by
  refine ⟨?_, ?_, ?_, ?_⟩
  · intro ch rest h1 h2
    conv_lhs => unfold scanChains
    rw [if_pos ⟨h1, h2⟩]
  · intro ch rest h1
    unfold scanChains
    rw [if_neg (fun hcon => Nat.lt_asymm h1 hcon.1), if_pos h1]
  · intro ch rest h1 h2 h3
    unfold scanChains
    rw [if_neg (fun hcon => h2 hcon.2), if_neg (Nat.lt_asymm h1), h3]
  · intro cs
    induction cs with
    | nil =>
      intro _ _ ch hm
      simp at hm
    | cons oc rest ih =>
      intro hpw hscan ch hm hnd
      obtain ⟨hrel, hpw'⟩ := List.pairwise_cons.mp hpw
      cases oc with
      | none => simp [scanChains] at hscan
      | some ch0 =>
        rcases List.mem_cons.mp hm with heq | hmem
        · injection heq with heq'
          subst heq'
          by_cases hskip :
            ch.tokens.length < path.length ∧ ch.flags &&& flagChainEnableTail = 0
          · have hne : (ch.tokens.length == path.length) = false := by
              simp [Nat.ne_of_lt hskip.1]
            simp [eligibleMatch, hne, hskip.2]
          · by_cases hstop : path.length < ch.tokens.length
            · have hne : (ch.tokens.length == path.length) = false := by
                simp [Nat.ne_of_gt hstop]
              simp [eligibleMatch, hne, Nat.lt_asymm hstop]
            · unfold scanChains at hscan
              rw [if_neg hskip, if_neg hstop] at hscan
              cases htm : tokensMatch ch.tokens path with
              | none => rw [htm] at hscan; cases hscan
              | some b =>
                rw [htm] at hscan
                cases b with
                | true => simp at hscan
                | false => simp [eligibleMatch, htm]
        · by_cases hskip :
            ch0.tokens.length < path.length ∧ ch0.flags &&& flagChainEnableTail = 0
          · have hscan' : scanChains path rest = some none := by
              unfold scanChains at hscan
              rwa [if_pos hskip] at hscan
            exact ih hpw' hscan' ch hmem hnd
          · by_cases hstop : path.length < ch0.tokens.length
            · have hx := hrel (some ch) hmem
              have hL : chainLess false ch ch0 = false := by
                simpa [sortedLe] using hx
              rw [chainLess_eq_keyLt] at hL
              have hle : ch0.tokens.length ≤ ch.tokens.length :=
                keyLt_false_len_le ch ch0 hnd hL
              have hgt : path.length < ch.tokens.length :=
                Nat.lt_of_lt_of_le hstop hle
              have hne : (ch.tokens.length == path.length) = false := by
                simp [Nat.ne_of_gt hgt]
              simp [eligibleMatch, hne, Nat.lt_asymm hgt]
            · unfold scanChains at hscan
              rw [if_neg hskip, if_neg hstop] at hscan
              cases htm : tokensMatch ch0.tokens path with
              | none => rw [htm] at hscan; cases hscan
              | some b =>
                rw [htm] at hscan
                cases b with
                | true => simp at hscan
                | false => exact ih hpw' hscan ch hmem hnd

/-- Witness for C5 (amended): a one-token chain against a two-segment
path is skipped (not tail-enabled), and a finished scan over an
inversion-free list implies the non-default chain was not eligible. -/
theorem C5_witness :
    scanChains ["a", "b"] [some wChainLit] = scanChains ["a", "b"] [] ∧
    eligibleMatch ["z"] wChainLit = false :=
  ⟨(C5_scan ["a", "b"]).1 wChainLit [] (by decide) (by decide),
   (C5_scan ["z"]).2.2.2 [some wChainLit, some wChainDflt] (by decide) rfl
     wChainLit (by simp) (by decide)⟩

/-- Witness for C4 (amended): the empty-pattern chain stands first, so
the empty path matches it. -/
theorem C4_witness :
    (Chains.Find wC4 []).map (fun r => r.matched.isSome)
      = some (emptySpecial wC4 || lastDefault wC4) :=
  C4_empty_path wC4 rfl (by decide) (by decide)

end Rest
